import Mathlib

/-!
Verification development for the lab-manual analysis pipeline
(`lab_manual_analyzer_organized.py`).

Python strings are modelled as `List Char` (a Python `str` is a sequence of
Unicode code points).  Fallible code is modelled with `Except (List Char)`.
All definitions are translated from the source file; line numbers in the
comments refer to `lab_manual_analyzer_organized.py`.
-/

set_option maxRecDepth 4000

/-- The apostrophe character, used to assemble French string literals. -/
def apoC : Char := Char.ofNat 39

/-- Singleton apostrophe string. -/
def apoS : List Char := [apoC]

/-- Whitespace as recognised by Python `str.strip()` and by `\s` in the
regular expressions of the source (restricted to the ASCII whitespace
characters, the only ones that occur in the modelled data). -/
def isPySpace (c : Char) : Bool :=
  c = ' ' || c = '\t' || c = '\n' || c = '\r' || c = '\x0b' || c = '\x0c'

/-- Python `str.strip()`: remove whitespace from both ends. -/
def pyStrip (l : List Char) : List Char :=
  ((l.dropWhile isPySpace).reverse.dropWhile isPySpace).reverse

/-- `a.startswith(b)` for strings modelled as `List Char`. -/
def startsWithB : List Char → List Char → Bool
  | [], _ => true
  | _ :: _, [] => false
  | p :: ps, c :: cs => p = c && startsWithB ps cs

/-- Substring containment: Python `pat in s`. -/
def containsSub (pat : List Char) : List Char → Bool
  | [] => startsWithB pat []
  | c :: rest => startsWithB pat (c :: rest) || containsSub pat rest

/-- Python `s.split(pat, 1)` when `pat` occurs: the parts before and after
the first occurrence of `pat`. -/
def splitOnceSub (pat : List Char) : List Char → Option (List Char × List Char)
  | [] => if startsWithB pat [] then some ([], []) else none
  | c :: rest =>
    if startsWithB pat (c :: rest) then some ([], (c :: rest).drop pat.length)
    else match splitOnceSub pat rest with
         | some (a, b) => some (c :: a, b)
         | none => none

/-- Index of the last occurrence of `c` (Python `s.rfind(c)`), `none` if absent. -/
def rfindIdx (c : Char) (l : List Char) : Option Nat :=
  let rec go : List Char → Nat → Option Nat → Option Nat
    | [], _, best => best
    | x :: rest, i, best => go rest (i + 1) (if x = c then some i else best)
  go l 0 none

/-- Python `s.split('\n')`. -/
def splitLines : List Char → List (List Char)
  | [] => [[]]
  | c :: rest =>
    if c = '\n' then [] :: splitLines rest
    else match splitLines rest with
         | l :: ls => (c :: l) :: ls
         | [] => [[c]]

/-- Python `'\n'.join(lines)`. -/
def joinLines : List (List Char) → List Char
  | [] => []
  | [l] => l
  | l :: ls => l ++ '\n' :: joinLines ls

/-- Python `s.strip().endswith(c)` for a single character. -/
def stripEndsWith (l : List Char) (c : Char) : Bool :=
  (pyStrip l).getLast? = some c

/-- Decimal digits of a natural number (fuel-based so that it reduces in the
kernel); models Python number formatting. -/
def natToStringGo : Nat → Nat → List Char → List Char
  | 0, _, acc => acc
  | fuel + 1, n, acc =>
    let d := Char.ofNat (48 + n % 10)
    if n < 10 then d :: acc else natToStringGo fuel (n / 10) (d :: acc)

/-- Python `str(n)` for a natural number. -/
def natToString (n : Nat) : List Char := natToStringGo (n + 1) n []

/-- Helper for the thousands-separator format: consumes the reversed digit
list, inserting a comma before every third digit. -/
def commaFmtGo : List Char → Nat → List Char → List Char
  | [], _, acc => acc
  | d :: rest, i, acc =>
    commaFmtGo rest (i + 1) (if i ≠ 0 ∧ i % 3 = 0 then d :: ',' :: acc else d :: acc)

/-- Python `f"{n:,}"`: decimal digits with thousands separators. -/
def commaFormat (n : Nat) : List Char := commaFmtGo (natToString n).reverse 0 []

/-- Python `Path(p).name`: the part of the path after the last slash. -/
def basename (l : List Char) : List Char :=
  l.foldl (fun acc c => if c = '/' then [] else acc ++ [c]) []

/-- Two-digit zero padding, Python `f"{n:02d}"`. -/
def pad2 (n : Nat) : List Char :=
  if n < 10 then '0' :: natToString n else natToString n

/-! ### `fix_common_json_errors` (source lines 658-702)

The five repair steps are translated one by one.  The two `re.sub` calls on
patterns of the form `,(\s*X)` delete a comma whenever it is followed by
optional whitespace and a closing bracket; the replacement keeps the
whitespace and the bracket and scanning resumes after the bracket, which is
exactly what the two-mode scanners below implement. -/

/-- Does the text after a comma consist of optional whitespace followed by a
closing brace or bracket?  (the match test of `re.sub(r',(\s*[}\]])', ...)`). -/
def commaCloserAfter (l : List Char) : Bool :=
  match l.dropWhile isPySpace with
  | c :: _ => c = '\x7d' || c = ']'
  | [] => false

/-- Like `commaCloserAfter` but only for `]`
(the match test of `re.sub(r',(\s*\])', ...)`). -/
def commaBracketAfter (l : List Char) : Bool :=
  match l.dropWhile isPySpace with
  | c :: _ => c = ']'
  | [] => false

/-- Step 1 scanner.  In mode `false` it scans for a matching comma; in mode
`true` it is emitting the whitespace run between a deleted comma and its
closing bracket. -/
def step1Go : Bool → List Char → List Char
  | _, [] => []
  | false, c :: rest =>
    if c = ',' ∧ commaCloserAfter rest then step1Go true rest
    else c :: step1Go false rest
  | true, c :: rest =>
    if isPySpace c then c :: step1Go true rest
    else c :: step1Go false rest

/-- Step 1: `re.sub(r',(\s*[}\]])', r'\1', json_text)` — delete trailing
commas before `}` / `]`. -/
def step1 (l : List Char) : List Char := step1Go false l

/-- The four-character separator `": "` (quote, colon, space, quote) used by
the per-line quote-escaping step. -/
def sepKV : List Char := ['"', ':', ' ', '"']

/-- Replace every `"` by `\"` (Python `value_content.replace('"', '\\"')`). -/
def escQuotes (l : List Char) : List Char :=
  l.flatMap fun c => if c = '"' then ['\\', '"'] else [c]

/-- Step 2, per line (source lines 669-689): if the line contains `": "` and
does not end (after stripping) with `,`, `{` or `[`, escape the quotes found
inside the value part, i.e. strictly before the last quote of the text that
follows the first `": "`. -/
def fixLine (line : List Char) : List Char :=
  if containsSub sepKV line
     ∧ ¬ stripEndsWith line ','
     ∧ ¬ stripEndsWith line '\x7b'
     ∧ ¬ stripEndsWith line '['
  then
    match splitOnceSub sepKV line with
    | some (key_part, value_part) =>
      match rfindIdx '"' value_part with
      | some i =>
        if 0 < i then
          key_part ++ sepKV ++ escQuotes (value_part.take i) ++ value_part.drop i
        else line
      | none => line
    | none => line
  else line

/-- Step 2: split on newlines, repair each line, rejoin with newlines. -/
def step2 (l : List Char) : List Char := joinLines ((splitLines l).map fixLine)

/-- A control character in the ranges `[\x00-\x1f]` or `[\x7f-\x9f]`. -/
def isCtrlChar (c : Char) : Bool :=
  c.toNat ≤ 0x1f || (0x7f ≤ c.toNat && c.toNat ≤ 0x9f)

/-- Step 3: `re.sub(r'[\x00-\x1f\x7f-\x9f]', ' ', json_text)` — replace every
control character by one space. -/
def step3 (l : List Char) : List Char :=
  l.map fun c => if isCtrlChar c then ' ' else c

/-- Step 4 scanner (same shape as step 1, closing bracket `]` only). -/
def step4Go : Bool → List Char → List Char
  | _, [] => []
  | false, c :: rest =>
    if c = ',' ∧ commaBracketAfter rest then step4Go true rest
    else c :: step4Go false rest
  | true, c :: rest =>
    if isPySpace c then c :: step4Go true rest
    else c :: step4Go false rest

/-- Step 4: `re.sub(r',(\s*\])', r'\1', json_text)`. -/
def step4 (l : List Char) : List Char := step4Go false l

/-- Step 5 scanner.  `re.sub(r',,+', ',', json_text)` collapses every run of
two or more commas into one comma; the flag records whether the previous
emitted character was part of a comma run. -/
def step5Go : Bool → List Char → List Char
  | _, [] => []
  | prevComma, c :: rest =>
    if c = ',' then
      if prevComma then step5Go true rest else ',' :: step5Go true rest
    else c :: step5Go false rest

/-- Step 5: `re.sub(r',,+', ',', json_text)`. -/
def step5 (l : List Char) : List Char := step5Go false l

/-- `fix_common_json_errors` (source lines 658-702): the five local JSON
repairs, applied in order. -/
def fix_common_json_errors (l : List Char) : List Char :=
  step5 (step4 (step3 (step2 (step1 l))))

/-! ### A JSON acceptor, modelling `json.loads` acceptance

`fix_common_json_errors` is specified relative to inputs that already parse
as valid JSON (the source validates with `json.loads`, an external library
call).  The acceptor below implements the JSON grammar (RFC 8259, plus the
`NaN` / `Infinity` extensions `json.loads` accepts, rejecting raw control
characters inside strings as Python's strict mode does).  It is fuel-based
so that it is structurally recursive and evaluable by `decide`. -/

/-- JSON insignificant whitespace. -/
def isJsonWs (c : Char) : Bool := c = ' ' || c = '\t' || c = '\n' || c = '\r'

/-- Skip JSON whitespace. -/
def skipWs (l : List Char) : List Char := l.dropWhile isJsonWs

/-- Is `c` a hexadecimal digit? -/
def isHexB (c : Char) : Bool :=
  c.isDigit || ('a' ≤ c && c ≤ 'f') || ('A' ≤ c && c ≤ 'F')

/-- Consume the rest of a JSON string literal (after the opening quote);
returns the input after the closing quote. -/
def parseStringBody : List Char → Option (List Char)
  | [] => none
  | c :: rest =>
    if c = '"' then some rest
    else if c = '\\' then
      match rest with
      | e :: rest2 =>
        if e = '"' ∨ e = '\\' ∨ e = '/' ∨ e = 'b' ∨ e = 'f' ∨ e = 'n' ∨ e = 'r' ∨ e = 't'
        then parseStringBody rest2
        else if e = 'u' then
          match rest2 with
          | h1 :: h2 :: h3 :: h4 :: rest3 =>
            if isHexB h1 ∧ isHexB h2 ∧ isHexB h3 ∧ isHexB h4
            then parseStringBody rest3 else none
          | _ => none
        else none
      | [] => none
    else if c.toNat < 0x20 then none
    else parseStringBody rest

/-- Consume an optional JSON fraction part. -/
def parseFrac : List Char → Option (List Char)
  | '.' :: r =>
    match r with
    | c :: _ => if c.isDigit then some (r.dropWhile Char.isDigit) else none
    | [] => none
  | l => some l

/-- Consume an optional JSON exponent part. -/
def parseExpPart : List Char → Option (List Char)
  | c :: r =>
    if c = 'e' ∨ c = 'E' then
      let r2 := match r with
                | s :: r' => if s = '+' ∨ s = '-' then r' else r
                | [] => r
      match r2 with
      | d :: _ => if d.isDigit then some (r2.dropWhile Char.isDigit) else none
      | [] => none
    else some (c :: r)
  | [] => some []

/-- Consume a JSON number. -/
def parseNumber (l : List Char) : Option (List Char) :=
  let l1 := match l with | '-' :: r => r | _ => l
  match l1 with
  | '0' :: r => (parseFrac r).bind parseExpPart
  | c :: r =>
    if c.isDigit then (parseFrac (r.dropWhile Char.isDigit)).bind parseExpPart
    else none
  | [] => none

/-- Mode of the JSON parser loop: a value, the tail of an array, or the tail
of an object. -/
inductive PMode where
  | value : PMode
  | items : Bool → PMode
  | members : Bool → PMode

/-- Fuel-based JSON parser; returns the remaining input after the parsed
fragment. -/
def parseJ : Nat → PMode → List Char → Option (List Char)
  | 0, _, _ => none
  | fuel + 1, PMode.value, l =>
    let l1 := skipWs l
    if startsWithB (['t', 'r', 'u', 'e']) l1 then some (l1.drop 4)
    else if startsWithB (['f', 'a', 'l', 's', 'e']) l1 then some (l1.drop 5)
    else if startsWithB (['n', 'u', 'l', 'l']) l1 then some (l1.drop 4)
    else if startsWithB (['N', 'a', 'N']) l1 then some (l1.drop 3)
    else if startsWithB ("Infinity".toList) l1 then some (l1.drop 8)
    else if startsWithB ("-Infinity".toList) l1 then some (l1.drop 9)
    else
      match l1 with
      | '"' :: r => parseStringBody r
      | '[' :: r => parseJ fuel (PMode.items true) r
      | '\x7b' :: r => parseJ fuel (PMode.members true) r
      | _ => parseNumber l1
  | fuel + 1, PMode.items first, l =>
    let l1 := skipWs l
    if first ∧ l1.head? = some ']' then some (l1.drop 1)
    else
      match parseJ fuel PMode.value l1 with
      | some r =>
        let r1 := skipWs r
        match r1 with
        | ',' :: r2 => parseJ fuel (PMode.items false) r2
        | ']' :: r2 => some r2
        | _ => none
      | none => none
  | fuel + 1, PMode.members first, l =>
    let l1 := skipWs l
    if first ∧ l1.head? = some '\x7d' then some (l1.drop 1)
    else
      match l1 with
      | '"' :: r =>
        match parseStringBody r with
        | some r1 =>
          match skipWs r1 with
          | ':' :: r2 =>
            match parseJ fuel PMode.value r2 with
            | some r3 =>
              let r4 := skipWs r3
              match r4 with
              | ',' :: r5 => parseJ fuel (PMode.members false) r5
              | '\x7d' :: r5 => some r5
              | _ => none
            | none => none
          | _ => none
        | none => none
      | _ => none

/-- Does `s` parse as valid JSON (one document, nothing but whitespace
after it)?  Models acceptance by `json.loads`. -/
def validJson (s : List Char) : Bool :=
  match parseJ (s.length + 2) PMode.value s with
  | some r => skipWs r = []
  | none => false

/-! ### Python values and the normalized analysis records

The structured payloads produced by the generative capability are Python
dicts/lists/strings; `PyVal` models the values that occur inside the
list-typed fields.  The normalized per-chunk record (`ChunkRecord`) has the
fixed top-level shape guaranteed by `validate_detailed_analysis_result`
(source lines 704-747): every list field is a Python list, `instrument` is a
dict.  The values of the `instrument` dict are modelled as plain strings
(the scalar identity fields the consolidation acts on; Python's `str()` is
the identity on them). -/

/-- A Python value: `None`, a string, a list, or a dict with string keys. -/
inductive PyVal where
  | pynull : PyVal
  | str : List Char → PyVal
  | list : List PyVal → PyVal
  | dict : List (List Char × PyVal) → PyVal

/-- First binding of a key in an association list (Python dict lookup;
insertion order is preserved, keys are unique by construction). -/
def lookupKV {α : Type} (kvs : List (List Char × α)) (k : List Char) : Option α :=
  match kvs with
  | [] => none
  | (k', v) :: rest => if k' = k then some v else lookupKV rest k

/-- Update the binding of `k` in place, or append it (Python `d[k] = v`). -/
def setKV {α : Type} (kvs : List (List Char × α)) (k : List Char) (v : α) :
    List (List Char × α) :=
  match kvs with
  | [] => [(k, v)]
  | (k', v') :: rest => if k' = k then (k', v) :: rest else (k', v') :: setKV rest k v

/-- Python truthiness of a value. -/
def pyTruthy : PyVal → Bool
  | PyVal.pynull => false
  | PyVal.str s => !s.isEmpty
  | PyVal.list l => !l.isEmpty
  | PyVal.dict d => !d.isEmpty

/-- Is the value a dict? -/
def pyIsDict : PyVal → Bool
  | PyVal.dict _ => true
  | _ => false

/-- Python `v.get(k, d)`: dict lookup with default; raises `AttributeError`
when `v` is not a dict. -/
def pyGetD (v : PyVal) (k : List Char) (d : PyVal) : Except (List Char) PyVal :=
  match v with
  | PyVal.dict kvs => Except.ok ((lookupKV kvs k).getD d)
  | _ => Except.error ("AttributeError: no attribute get".toList)

/-- Python slicing `v[:n]`: defined on lists and strings, raises otherwise. -/
def pySliceTo (v : PyVal) (n : Nat) : Except (List Char) PyVal :=
  match v with
  | PyVal.list l => Except.ok (PyVal.list (l.take n))
  | PyVal.str s => Except.ok (PyVal.str (s.take n))
  | _ => Except.error ("TypeError: unsliceable".toList)

/-- Python `len(v)`: defined on strings, lists and dicts. -/
def pyLen (v : PyVal) : Except (List Char) Nat :=
  match v with
  | PyVal.str s => Except.ok s.length
  | PyVal.list l => Except.ok l.length
  | PyVal.dict d => Except.ok d.length
  | _ => Except.error ("TypeError: no len".toList)

/-- Python iteration `for x in v`: lists yield their items, strings their
characters, dicts their keys; other values are not iterable. -/
def pyIter (v : PyVal) : Except (List Char) (List PyVal) :=
  match v with
  | PyVal.list l => Except.ok l
  | PyVal.str s => Except.ok (s.map fun c => PyVal.str [c])
  | PyVal.dict d => Except.ok (d.map fun kv => PyVal.str kv.1)
  | _ => Except.error ("TypeError: not iterable".toList)

/-- The normalized structured output of one analysis unit, as guaranteed by
`validate_detailed_analysis_result`: all list-typed fields present as lists,
`instrument` a dict whose values are the scalar identity strings. -/
structure ChunkRecord where
  instrument : List (List Char × List Char)
  procedures : List PyVal
  maintenance : List PyVal
  specifications_techniques : List PyVal
  securite : List PyVal
  stockage_reagents : List PyVal
  validation_clinique : PyVal
  calibration : List PyVal
  troubleshooting : List PyVal
  resume_section : List Char

/-! ### Consolidation (first half of `synthesize_final_medical`, lines 756-792)

The loop over `analyses` extends the eight accumulator lists and merges the
instrument identity dict.  The claims restrict attention to lists of records
that are dicts (which normalization guarantees), so the
`isinstance(analysis, dict)` guard of line 768 never skips anything here. -/

/-- The accumulators of the consolidation loop. -/
structure Compiled where
  all_procedures : List PyVal
  all_maintenance : List PyVal
  all_specs : List PyVal
  all_security : List PyVal
  all_calibration : List PyVal
  all_storage : List PyVal
  all_validation : List PyVal
  all_troubleshooting : List PyVal
  instrument_info : List (List Char × List Char)

/-- The empty accumulators (source lines 757-765). -/
def Compiled.empty : Compiled := ⟨[], [], [], [], [], [], [], [], []⟩

/-- One step of the instrument-identity merge (source lines 789-792): a
value wins its key when it is truthy, strips to something non-empty, does
not start with `"Non"`, and is strictly longer than the current holder. -/
def instStep (info : List (List Char × List Char)) (kv : List Char × List Char) :
    List (List Char × List Char) :=
  let k := kv.1
  let v := kv.2
  if v ≠ [] ∧ pyStrip v ≠ [] ∧ ¬ startsWithB ("Non".toList) v then
    if (lookupKV info k).isNone ∨ ((lookupKV info k).getD []).length < v.length
    then setKV info k v
    else info
  else info

/-- Processing of one analysis record (loop body, source lines 767-792). -/
def compileStep (acc : Compiled) (a : ChunkRecord) : Compiled :=
  { all_procedures := acc.all_procedures ++ a.procedures
    all_maintenance := acc.all_maintenance ++ a.maintenance
    all_specs := acc.all_specs ++ a.specifications_techniques
    all_security := acc.all_security ++ a.securite
    all_calibration := acc.all_calibration ++ a.calibration
    all_storage := acc.all_storage ++ a.stockage_reagents
    all_troubleshooting := acc.all_troubleshooting ++ a.troubleshooting
    all_validation :=
      if pyTruthy a.validation_clinique ∧ pyIsDict a.validation_clinique
      then acc.all_validation ++ [a.validation_clinique]
      else acc.all_validation
    instrument_info := a.instrument.foldl instStep acc.instrument_info }

/-- The consolidation loop over all analysis records. -/
def compileAnalyses (analyses : List ChunkRecord) : Compiled :=
  analyses.foldl compileStep Compiled.empty

/-! ### Fallback synthesis (`create_comprehensive_fallback_synthesis`,
source lines 999-1081)

The construction is deterministic.  Python attribute access `x.get(...)`
raises `AttributeError` when `x` is not a dict, so the construction is
fallible: `pyGetD` is used for every `.get` of the source, and the whole
builder lives in `Except`. -/

/-- `proc.get(k1, {}).get(k2, default)` (two-level access of the source). -/
def pyGet2 (v : PyVal) (k1 k2 : List Char) (d : PyVal) : Except (List Char) PyVal := do
  let inner ← pyGetD v k1 (PyVal.dict [])
  pyGetD inner k2 d

/-- The fallback reshaping of one extracted procedure (source lines 1014-1043). -/
def mkProcFallback (proc : PyVal) : Except (List Char) PyVal := do
  let nom ← pyGetD proc ("nom".toList) (PyVal.str ("Analyse non spécifiée".toList))
  let echType ← pyGet2 proc ("echantillon".toList) ("type".toList)
      (PyVal.str ("Non spécifié".toList))
  let echVolMin ← pyGet2 proc ("echantillon".toList) ("volume_minimum".toList)
      (PyVal.str ("Voir manuel".toList))
  let echVolTrait ← pyGet2 proc ("echantillon".toList) ("volume_traitement".toList)
      (PyVal.str ("Voir manuel".toList))
  let echAntico ← pyGet2 proc ("echantillon".toList) ("anticoagulant".toList)
      (PyVal.str ("Selon procédure".toList))
  let prepEtapesRaw ← pyGet2 proc ("preparation_echantillon".toList) ("etapes".toList)
      (PyVal.list [])
  let prepEtapes ← pySliceTo prepEtapesRaw 5
  let prepStab ← pyGet2 proc ("preparation_echantillon".toList) ("stabilite".toList)
      (PyVal.str ("Voir manuel".toList))
  let prepStock ← pyGet2 proc ("preparation_echantillon".toList) ("stockage".toList)
      (PyVal.str ("Conditions standard".toList))
  let paWorkflowRaw ← pyGet2 proc ("procedure_analytique".toList) ("etapes_detaillees".toList)
      (PyVal.list [])
  let paWorkflow ← pySliceTo paWorkflowRaw 6
  let paDuree ← pyGet2 proc ("procedure_analytique".toList) ("duree_totale".toList)
      (PyVal.str ("Voir manuel".toList))
  let paCond ← pyGet2 proc ("procedure_analytique".toList) ("temperature_incubation".toList)
      (PyVal.str ("Conditions contrôlées".toList))
  let perfGamme ← pyGet2 proc ("performance".toList) ("gamme_lineaire".toList)
      (PyVal.str ("Voir spécifications".toList))
  let perfLim ← pyGet2 proc ("performance".toList) ("limite_detection".toList)
      (PyVal.str ("Selon validation".toList))
  let perfPrec ← pyGet2 proc ("performance".toList) ("precision".toList)
      (PyVal.str ("Données de validation".toList))
  let cqTypesRaw ← pyGet2 proc ("controles_qualite".toList) ("controles_requis".toList)
      (PyVal.list [])
  let cqTypes ← pySliceTo cqTypesRaw 3
  let cqFreq ← pyGet2 proc ("controles_qualite".toList) ("frequence".toList)
      (PyVal.str ("Selon procédure".toList))
  let precautionsRaw ← pyGetD proc ("precautions_critiques".toList) (PyVal.list [])
  let precautions ← pySliceTo precautionsRaw 4
  pure (PyVal.dict
    [(("nom_analyse".toList), nom),
     (("indication_clinique".toList), PyVal.str ("Indication selon manuel complet".toList)),
     (("echantillon".toList), PyVal.dict
        [(("type".toList), echType),
         (("volume_minimum".toList), echVolMin),
         (("volume_traitement".toList), echVolTrait),
         (("anticoagulant".toList), echAntico)]),
     (("preparation_detaillee".toList), PyVal.dict
        [(("etapes".toList), prepEtapes),
         (("stabilite".toList), prepStab),
         (("stockage".toList), prepStock)]),
     (("procedure_analytique".toList), PyVal.dict
        [(("workflow".toList), paWorkflow),
         (("duree_totale".toList), paDuree),
         (("conditions_techniques".toList), paCond)]),
     (("performance_analytique".toList), PyVal.dict
        [(("gamme_mesure".toList), perfGamme),
         (("limite_detection".toList), perfLim),
         (("precision".toList), perfPrec)]),
     (("controles_qualite".toList), PyVal.dict
        [(("types_controles".toList), cqTypes),
         (("frequence".toList), cqFreq)]),
     (("precautions_critiques".toList), precautions)])

/-- The fallback reshaping of one maintenance item (source lines 1047-1057). -/
def mkMaintFallback (maint : PyVal) : Except (List Char) PyVal := do
  let ty ← pyGetD maint ("type".toList) (PyVal.str ("Maintenance non spécifiée".toList))
  let freq ← pyGetD maint ("frequence".toList) (PyVal.str ("Non spécifiée".toList))
  let duree ← pyGetD maint ("duree".toList) (PyVal.str ("Selon complexité".toList))
  let prepRaw ← pyGet2 maint ("procedure_complete".toList) ("preparation".toList) (PyVal.list [])
  let prep ← pySliceTo prepRaw 3
  let execRaw ← pyGet2 maint ("procedure_complete".toList) ("execution".toList) (PyVal.list [])
  let exec ← pySliceTo execRaw 4
  let verifRaw ← pyGet2 maint ("procedure_complete".toList) ("verification".toList) (PyVal.list [])
  let verif ← pySliceTo verifRaw 3
  let matRaw ← pyGetD maint ("materiels_requis".toList) (PyVal.list [])
  let mat ← pySliceTo matRaw 3
  pure (PyVal.dict
    [(("type_maintenance".toList), ty),
     (("frequence_precise".toList), freq),
     (("duree_estimee".toList), duree),
     (("procedure_step_by_step".toList), PyVal.dict
        [(("preparation".toList), prep),
         (("execution".toList), exec),
         (("verification".toList), verif)]),
     (("materiels_specifiques".toList), mat)])

/-- The fixed daily-use guide of the fallback record (source lines 1060-1079). -/
def guideQuotidienne : PyVal :=
  PyVal.dict
    [(("demarrage_systeme".toList), PyVal.list
        [PyVal.str (("Vérifier l".toList) ++ apoS ++ ("alimentation électrique".toList)),
         PyVal.str ("Contrôler les niveaux de réactifs".toList),
         PyVal.str ("Effectuer les contrôles qualité".toList),
         PyVal.str ("Valider le fonctionnement système".toList)]),
     (("arret_systeme".toList), PyVal.list
        [PyVal.str ("Finaliser toutes les analyses en cours".toList),
         PyVal.str ("Effectuer le nettoyage système".toList),
         PyVal.str ("Sauvegarder les données".toList),
         PyVal.str ("Mise en sécurité".toList)]),
     (("maintenance_quotidienne".toList), PyVal.list
        [PyVal.str (("Contrôles visuels de l".toList) ++ apoS ++ ("instrument".toList)),
         PyVal.str ("Nettoyage des surfaces externes".toList),
         PyVal.str ("Vérification des niveaux".toList),
         PyVal.str ("Documentation des observations".toList)])]

/-- The executive summary of the fallback record (source line 1080); it
always embeds the fixed sentence fragments of the f-string, in particular
`"générée automatiquement"`. -/
def resumeFallback (info : List (List Char × List Char))
    (procedures maintenance : List PyVal) : List Char :=
  ("Synthèse technique exhaustive de l".toList) ++ apoS ++ ("instrument ".toList)
  ++ (lookupKV info ("nom".toList)).getD ("non identifié".toList)
  ++ (" générée automatiquement. ".toList)
  ++ natToString procedures.length
  ++ (" procédures d".toList) ++ apoS ++ ("analyse, ".toList)
  ++ natToString maintenance.length
  ++ (" opérations de maintenance identifiées. Cette synthèse consolidée couvre les aspects critiques d".toList)
  ++ apoS
  ++ ("utilisation, de maintenance et de sécurité pour usage médical professionnel. Vérification obligatoire avec le manuel complet avant mise en service clinique.".toList)

/-- The `applications_principales` field of the fallback record:
`instrument_info.get('applications_cliniques', [])[:5]` (with the
instrument values modelled as strings, a present value is sliced as a
string). -/
def fallbackApps (instrument_info : List (List Char × List Char)) : PyVal :=
  match lookupKV instrument_info ("applications_cliniques".toList) with
  | some s => PyVal.str (s.take 5)
  | none => PyVal.list []

/-- The dict literal returned by the fallback builder (source lines
1003-1081), abstracted over the two reshaped lists. -/
def fallbackDict (instrument_info : List (List Char × List Char))
    (procedures maintenance : List PyVal) (procsOut maintsOut : List PyVal) : PyVal :=
  PyVal.dict
    [(("informations_generales".toList), PyVal.dict
        [(("nom_instrument".toList),
          PyVal.str ((lookupKV instrument_info ("nom".toList)).getD
            ("Instrument non identifié".toList))),
         (("fabricant".toList),
          PyVal.str ((lookupKV instrument_info ("fabricant".toList)).getD
            ("Non spécifié".toList))),
         (("modele".toList),
          PyVal.str ((lookupKV instrument_info ("modele".toList)).getD
            ("Non spécifié".toList))),
         (("type_instrument".toList),
          PyVal.str ((lookupKV instrument_info ("type".toList)).getD
            ("Analyseur médical".toList))),
         (("applications_principales".toList), fallbackApps instrument_info),
         (("principe_fonctionnement".toList),
          PyVal.str ((lookupKV instrument_info ("principe_technique".toList)).getD
            ("Non spécifié".toList))),
         (("approche_diagnostique".toList),
          PyVal.str ("Méthodologie diagnostique selon manuel".toList))]),
     (("procedures_analyses".toList), PyVal.list procsOut),
     (("maintenance_preventive".toList), PyVal.list maintsOut),
     (("guide_utilisation_quotidienne".toList), guideQuotidienne),
     (("resume_executif".toList),
      PyVal.str (resumeFallback instrument_info procedures maintenance))]

/-- `create_comprehensive_fallback_synthesis` (source lines 999-1081): the
deterministic fallback record, built from the consolidated identity fields
and the bounded slices `procedures[:5]` and `maintenance[:6]`.  The `specs`
and `security` parameters are accepted but unused, as in the source. -/
def create_comprehensive_fallback_synthesis (instrument_info : List (List Char × List Char))
    (procedures maintenance _specs _security : List PyVal) :
    Except (List Char) PyVal := do
  let procsOut ← (procedures.take 5).mapM mkProcFallback
  let maintsOut ← (maintenance.take 6).mapM mkMaintFallback
  pure (fallbackDict instrument_info procedures maintenance procsOut maintsOut)

/-- `synthesize_final_medical` (source lines 749-966).  `llmOutcome` is the
outcome of the consolidation request to the generative capability, after
JSON recovery and parsing (`validate_and_fix_json_with_gemini` +
`json.loads`).  On a parsed result, `validate_comprehensive_synthesis`
(lines 968-997) raises only when the payload is not a dict; any exception
inside the `try` block switches to the deterministic fallback, which may
itself raise. -/
def synthesize_final_medical (analyses : List ChunkRecord)
    (llmOutcome : Except (List Char) PyVal) : Except (List Char) PyVal :=
  if analyses.isEmpty then Except.error ("❌ Aucune analyse à synthétiser".toList)
  else
    let c := compileAnalyses analyses
    let fb := create_comprehensive_fallback_synthesis c.instrument_info
      c.all_procedures c.all_maintenance c.all_specs c.all_security
    match llmOutcome with
    | Except.ok r => if pyIsDict r then Except.ok r else fb
    | Except.error _ => fb

/-! ### Chunk splitter (`split_pdf_15pages`, source lines 214-266)

A sub-document is represented by its list of 1-based page numbers.  The
source's `math.ceil(total_pages / pages_per_chunk)` is the integer ceiling
(page counts are far below the range where float division could round). -/

/-- The Document AI page limit (source line 50). -/
def max_pages_per_request : Nat := 15

/-- `split_pdf_15pages`: one sub-document when the page count is within the
limit, otherwise `ceil(P/15)` sub-documents of 15 pages each except the
last. -/
def split_pdf_15pages (totalPages : Nat) : Except (List Char) (List (List Nat)) :=
  if totalPages = 0 then Except.error ("❌ PDF sans pages".toList)
  else if totalPages ≤ max_pages_per_request then
    Except.ok [List.range' 1 totalPages]
  else
    let num := (totalPages + max_pages_per_request - 1) / max_pages_per_request
    Except.ok ((List.range num).map fun i =>
      let s := i * max_pages_per_request
      let e := min (s + max_pages_per_request) totalPages
      List.range' (s + 1) (e - s))

/-- The chunk file name `f"chunk_{i+1:02d}_p{start_page+1}-{end_page}.pdf"`
(source line 251; the directory part is dropped again by `Path(...).name`
when the merge header is built). -/
def chunkFileName (i s e : Nat) : List Char :=
  ("chunk_".toList) ++ pad2 (i + 1) ++ ("_p".toList) ++ natToString (s + 1)
  ++ ("-".toList) ++ natToString e ++ (".pdf".toList)

/-! ### Extraction (`extract_text_safe`, source lines 268-332)

The OCR capability is an external collaborator; its outcome for a given
sub-document (after the local retry loop has run its course) is supplied by
the environment.  The validations of the source are applied to that
outcome: empty text and text shorter than 100 characters are failures. -/

/-- The validated result of one extraction (source lines 313-318). -/
structure ExtractionResult where
  text : List Char
  pages : Nat
  chunk_file : List Char
  char_count : Nat
deriving DecidableEq

/-- `extract_text_safe` on the outcome `ocr` the OCR capability produced
for one sub-document. -/
def extract_text_safe (ocr : Except (List Char) (List Char × Nat))
    (chunkFile : List Char) : Except (List Char) ExtractionResult := do
  let (text, pages) ← ocr
  if text.isEmpty then
    Except.error ("❌ Document AI n".toList ++ apoS ++ ("a extrait aucun texte".toList))
  else if text.length < 100 then
    Except.error (("❌ Texte extrait insuffisant: ".toList) ++ natToString text.length
      ++ (" caractères".toList))
  else
    pure ⟨text, pages, chunkFile, text.length⟩

/-! ### Text merger (`merge_texts_medical`, source lines 1083-1110) -/

/-- The run of 80 `=` characters used by the section headers. -/
def eq80 : List Char := List.replicate 80 '='

/-- The fixed text `"SECTION MÉDICALE "` of the section headers. -/
def sectionLit : List Char := "SECTION MÉDICALE ".toList

/-- The section header prepended to section `i` (0-based), source line 1095. -/
def sectionHeader (i : Nat) (r : ExtractionResult) : List Char :=
  ('\n' :: '\n' :: eq80) ++ ('\n' :: sectionLit) ++ natToString (i + 1)
  ++ ('\n' :: ("Pages: ".toList)) ++ natToString r.pages
  ++ ('\n' :: ("Caractères: ".toList)) ++ commaFormat r.text.length
  ++ ('\n' :: ("Source: ".toList)) ++ basename r.chunk_file
  ++ ('\n' :: eq80) ++ ['\n', '\n']

/-- The error raised for an under-length section (source line 1104). -/
def mergeSectionError (i : Nat) : List Char :=
  ("Section ".toList) ++ natToString (i + 1)
  ++ (" contient un texte insuffisant pour analyse médicale".toList)

/-- Loop of `merge_texts_medical`: accept a section only when its text is
truthy and strictly longer than 50 characters, otherwise raise naming the
section. -/
def mergeGo (i : Nat) (full : List Char) :
    List ExtractionResult → Except (List Char) (List Char)
  | [] => Except.ok full
  | r :: rest =>
    if !r.text.isEmpty ∧ 50 < r.text.length then
      mergeGo (i + 1) (full ++ sectionHeader i r ++ r.text) rest
    else Except.error (mergeSectionError i)

/-- `merge_texts_medical` (source lines 1083-1110). -/
def merge_texts_medical (chunk_results : List ExtractionResult) :
    Except (List Char) (List Char) :=
  if chunk_results.isEmpty then
    Except.error ("❌ Aucune section valide pour analyse médicale".toList)
  else mergeGo 0 [] chunk_results

/-! ### Analysis chunker (`create_analysis_chunks`, source lines 1112-1190)

Two concrete regular expressions occur:
`r'={80}\nSECTION MÉDICALE \d+'` (marker detection with `re.findall`) and
`r'={80}\nSECTION MÉDICALE \d+[^\n]*\n={80}\n\n'` (the splitting pattern of
`re.split`, which removes the matched delimiters).  Both are implemented as
explicit scanners with the usual leftmost, non-overlapping semantics. -/

/-- Consume the literal `pat` from the front of `l`. -/
def eatLit (pat l : List Char) : Option (List Char) :=
  if startsWithB pat l then some (l.drop pat.length) else none

/-- The common prefix of both patterns: 80 `=`, a newline, and
`"SECTION MÉDICALE "`. -/
def markerPrefix : List Char := eq80 ++ '\n' :: sectionLit

/-- Match of `r'={80}\nSECTION MÉDICALE \d+'` at the start of `l`;
returns the input after the match. -/
def markerMatch (l : List Char) : Option (List Char) :=
  match eatLit markerPrefix l with
  | none => none
  | some l1 =>
    if (l1.takeWhile Char.isDigit).isEmpty then none
    else some (l1.drop (l1.takeWhile Char.isDigit).length)

/-- Match of `r'={80}\nSECTION MÉDICALE \d+[^\n]*\n={80}\n\n'` at the start
of `l`; returns the input after the match.  After the digits, `[^\n]*`
consumes greedily up to the next newline, which must be followed by another
run of 80 `=` and a blank line. -/
def splitMatch (l : List Char) : Option (List Char) :=
  match eatLit markerPrefix l with
  | none => none
  | some l1 =>
    if (l1.takeWhile Char.isDigit).isEmpty then none
    else eatLit ('\n' :: eq80 ++ ['\n', '\n'])
      ((l1.drop (l1.takeWhile Char.isDigit).length).dropWhile (fun c => c ≠ '\n'))

theorem startsWithB_length {p l : List Char} (h : startsWithB p l = true) :
    p.length ≤ l.length := by
  induction p generalizing l with
  | nil => simp
  | cons a p ih =>
    cases l with
    | nil => simp [startsWithB] at h
    | cons c cs =>
      simp only [startsWithB, Bool.and_eq_true] at h
      have := ih h.2
      simp only [List.length_cons]
      omega

theorem dropWhileLen_le (p : Char → Bool) (l : List Char) :
    (l.dropWhile p).length ≤ l.length := by
  induction l with
  | nil => simp
  | cons a t ih =>
    by_cases h : p a
    · simp [List.dropWhile, h]; omega
    · simp [List.dropWhile, h]

theorem eatLit_some {pat l r : List Char} (h : eatLit pat l = some r) :
    startsWithB pat l = true ∧ r = l.drop pat.length := by
  unfold eatLit at h
  split at h
  · exact ⟨by assumption, by cases h; rfl⟩
  · cases h

theorem markerMatch_length {l r : List Char} (h : markerMatch l = some r) :
    r.length < l.length := by
  unfold markerMatch at h
  cases he : eatLit markerPrefix l with
  | none => rw [he] at h; cases h
  | some l1 =>
    rw [he] at h
    dsimp only at h
    by_cases hd : (l1.takeWhile Char.isDigit).isEmpty
    · rw [if_pos hd] at h; cases h
    · rw [if_neg hd] at h
      injection h with h1
      obtain ⟨hsw, hdrop⟩ := eatLit_some he
      have hplen : l1.length = l.length - markerPrefix.length := by
        rw [hdrop]; simp
      have hlge : markerPrefix.length ≤ l.length := startsWithB_length hsw
      have hp : markerPrefix.length = 98 := by decide
      have hne : l1.takeWhile Char.isDigit ≠ [] := by
        simpa [List.isEmpty_iff] using hd
      have hdl : 0 < (l1.takeWhile Char.isDigit).length := List.length_pos.mpr hne
      have hr : r.length = l1.length - (l1.takeWhile Char.isDigit).length := by
        rw [← h1]; simp
      have hl1 : 0 < l1.length := by
        rcases l1 with _ | _
        · simp at hne
        · simp
      omega

theorem splitMatch_length {l r : List Char} (h : splitMatch l = some r) :
    r.length < l.length := by
  unfold splitMatch at h
  cases he : eatLit markerPrefix l with
  | none => rw [he] at h; cases h
  | some l1 =>
    rw [he] at h
    dsimp only at h
    by_cases hd : (l1.takeWhile Char.isDigit).isEmpty
    · rw [if_pos hd] at h; cases h
    · rw [if_neg hd] at h
      obtain ⟨hsw, hdrop⟩ := eatLit_some he
      obtain ⟨hsw2, hdrop2⟩ := eatLit_some h
      have hplen : l1.length = l.length - markerPrefix.length := by
        rw [hdrop]; simp
      have hlge : markerPrefix.length ≤ l.length := startsWithB_length hsw
      have hp : markerPrefix.length = 98 := by decide
      have hq : ('\n' :: eq80 ++ ['\n', '\n']).length = 83 := by decide
      have hq2 : ('\n' :: eq80 ++ ['\n', '\n']).length ≤
          ((l1.drop (l1.takeWhile Char.isDigit).length).dropWhile
            (fun c => c ≠ '\n')).length := startsWithB_length hsw2
      have h3 : ((l1.drop (l1.takeWhile Char.isDigit).length).dropWhile
          (fun c => c ≠ '\n')).length ≤ l1.length := by
        calc ((l1.drop (l1.takeWhile Char.isDigit).length).dropWhile
            (fun c => c ≠ '\n')).length
            ≤ (l1.drop (l1.takeWhile Char.isDigit).length).length :=
              dropWhileLen_le _ _
          _ ≤ l1.length := by simp
      have hr : r.length = ((l1.drop (l1.takeWhile Char.isDigit).length).dropWhile
          (fun c => c ≠ '\n')).length - 83 := by
        rw [hdrop2]; simp [List.length_drop, eq80]
      omega

/-- `re.findall` count for the marker pattern (source line 1133). -/
def countMarkersGo (l : List Char) : Nat :=
  match hm : markerMatch l with
  | some rem => 1 + countMarkersGo rem
  | none =>
    match l with
    | [] => 0
    | _ :: rest => countMarkersGo rest
termination_by l.length
decreasing_by
  · exact markerMatch_length hm
  · simp

/-- `len(re.findall(r'={80}\nSECTION MÉDICALE \d+', text))`. -/
def countMarkers (l : List Char) : Nat := countMarkersGo l

/-- `re.split` scanner: collect the current piece until a delimiter match,
then start a new piece after the delimiter (which is dropped). -/
def pySplitGo (l : List Char) (cur : List Char) : List (List Char) :=
  match hm : splitMatch l with
  | some rem => cur.reverse :: pySplitGo rem []
  | none =>
    match l with
    | [] => [cur.reverse]
    | c :: rest => pySplitGo rest (c :: cur)
termination_by l.length
decreasing_by
  · exact splitMatch_length hm
  · simp

/-- `re.split(r'={80}\nSECTION MÉDICALE \d+[^\n]*\n={80}\n\n', text)`
(source line 1138). -/
def pySplitSections (l : List Char) : List (List Char) := pySplitGo l []

/-- The Gemini character budget (source line 1118). -/
def max_chars_per_chunk : Nat := 350000

/-- One analysis unit (source lines 1123-1128). -/
structure AnalysisChunk where
  text : List Char
  chunk_id : Nat
  description : List Char
  char_count : Nat
deriving DecidableEq

/-- Description of a flushed middle chunk (source line 1151). -/
def midDesc (secs : List Nat) : List Char :=
  if 1 < secs.length then
    ("Sections médicales ".toList) ++ natToString (secs.headD 0)
    ++ ('-' :: natToString (secs.getLastD 0))
  else ("Section médicale ".toList) ++ natToString (secs.headD 0)

/-- Description of the final chunk (source line 1166). -/
def finalDesc (secs : List Nat) : List Char :=
  if 1 < secs.length then
    ("Sections finales ".toList) ++ natToString (secs.headD 0)
    ++ ('-' :: natToString (secs.getLastD 0))
  else ("Section finale ".toList) ++ natToString (secs.headD 0)

/-- The greedy section-packing loop (source lines 1140-1168). -/
def sectionPackGo :
    List (List Char) → Nat → List Char → List Nat → List AnalysisChunk →
    List AnalysisChunk
  | [], _, current, secs, acc =>
    if !(pyStrip current).isEmpty then
      acc ++ [⟨current, acc.length, finalDesc secs, current.length⟩]
    else acc
  | s :: rest, i, current, secs, acc =>
    if (pyStrip s).isEmpty then sectionPackGo rest (i + 1) current secs acc
    else if max_chars_per_chunk < current.length + s.length ∧ !current.isEmpty then
      sectionPackGo rest (i + 1) s [i + 1]
        (acc ++ [⟨current, acc.length, midDesc secs, current.length⟩])
    else sectionPackGo rest (i + 1) (current ++ s) (secs ++ [i + 1]) acc

/-- Description of a fallback slice (source line 1179). -/
def partieDesc (n : Nat) : List Char := ("Partie médicale ".toList) ++ natToString n

/-- The fixed-size slicing fallback (source lines 1171-1181): slices of
`max_chars_per_chunk` characters; a slice that strips to nothing is
dropped. -/
def fallbackGo (l : List Char) (acc : List AnalysisChunk) : List AnalysisChunk :=
  if l.isEmpty then acc
  else
    let c := l.take max_chars_per_chunk
    let acc' :=
      if !(pyStrip c).isEmpty then
        acc ++ [⟨c, acc.length, partieDesc (acc.length + 1), c.length⟩]
      else acc
    fallbackGo (l.drop max_chars_per_chunk) acc'
termination_by l.length
decreasing_by
  simp [List.length_drop]
  rename_i hne
  have : l ≠ [] := by simpa [List.isEmpty_iff] using hne
  have : 0 < l.length := List.length_pos.mpr this
  simp [max_chars_per_chunk]
  omega

/-- `create_analysis_chunks` (source lines 1112-1190). -/
def create_analysis_chunks (text : List Char) : Except (List Char) (List AnalysisChunk) :=
  if text.isEmpty ∨ (pyStrip text).length < 100 then
    Except.error ("❌ Texte insuffisant pour création de chunks".toList)
  else if text.length ≤ max_chars_per_chunk then
    Except.ok [⟨text, 0, ("Document médical complet".toList), text.length⟩]
  else
    let chunks :=
      if 1 < countMarkers text then sectionPackGo (pySplitSections text) 0 [] [] []
      else fallbackGo text []
    if chunks.isEmpty then
      Except.error (("❌ Échec création des chunks d".toList) ++ apoS ++ ("analyse".toList))
    else Except.ok chunks

/-! ### Running context (source lines 345-353 and 1234-1251)

The driver appends the unit description, the unit summary and the
instrument name (when present) to the running context after each analysis
unit; the only bounding happens when the context is embedded into the next
prompt, which uses `context[-300:]`. -/

/-- The context update after one analysis unit (source lines 1244-1246). -/
def updateContext (ctx : List Char) (desc : List Char) (a : ChunkRecord) : List Char :=
  let ctx1 := ctx ++ desc ++ (": ".toList) ++ a.resume_section ++ ['\n']
  match lookupKV a.instrument ("nom".toList) with
  | some nom =>
    if nom ≠ [] then ctx1 ++ ("Instrument: ".toList) ++ nom ++ ['\n'] else ctx1
  | none => ctx1

/-- The context fragment embedded in a prompt:
`context[-300:] if context else "Début du document"` (source line 351). -/
def promptContext (ctx : List Char) : List Char :=
  if ctx.isEmpty then ("Début du document".toList) else ctx.drop (ctx.length - 300)

/-! ### The pipeline driver (`analyze_manual_organized`, source lines 1192-1297)

External collaborators (file preparation, the OCR capability, the
generative capability, LaTeX rendering) are supplied by an environment.
`ocr i` is the final outcome the retry loop of `extract_text_safe` settles
on for sub-document `i`; `gemini i pctx` is the outcome (after JSON
recovery, parsing and normalization) of the analysis of unit `i` whose
prompt embeds the context window `pctx`; `synthLLM` is the outcome of the
consolidation request. -/

/-- The external collaborators of one run. -/
structure Env where
  pdfName : List Char
  totalPages : Nat
  prepare : Except (List Char) Unit
  ocr : Nat → Except (List Char) (List Char × Nat)
  gemini : Nat → List Char → Except (List Char) ChunkRecord
  synthLLM : Except (List Char) PyVal
  latexOk : Bool

/-- The intermediate artifacts of a run that reached consolidation. -/
structure Artifacts where
  pdf_chunks : List (List Nat)
  chunk_texts : List ExtractionResult
  full_text : List Char
  analysis_chunks : List AnalysisChunk
  chunk_analyses : List ChunkRecord
  final_context : List Char

/-- Names of the sub-document files handed to extraction (source lines
230 and 251): the source itself when it fits in one chunk, generated chunk
files otherwise. -/
def chunkFiles (env : Env) (ranges : List (List Nat)) : List (List Char) :=
  if env.totalPages ≤ max_pages_per_request then [env.pdfName]
  else ranges.enum.map fun ir =>
    chunkFileName ir.1 (ir.1 * max_pages_per_request)
      (ir.1 * max_pages_per_request + ir.2.length)

/-- Extraction of every sub-document, in order (source lines 1210-1219). -/
def extractAll (env : Env) (files : List (List Char)) :
    Except (List Char) (List ExtractionResult) :=
  files.enum.mapM fun pr => extract_text_safe (env.ocr pr.1) pr.2

/-- The sequential analysis loop (source lines 1237-1251): each unit is
analysed with the current context window, then the context is extended. -/
def analyzeGo (env : Env) :
    List AnalysisChunk → Nat → List ChunkRecord → List Char →
    Except (List Char) (List ChunkRecord × List Char)
  | [], _, recs, ctx => Except.ok (recs, ctx)
  | u :: rest, i, recs, ctx => do
    let r ← env.gemini i (promptContext ctx)
    analyzeGo env rest (i + 1) (recs ++ [r]) (updateContext ctx u.description r)

/-- Steps 1-6 of the driver: preparation, splitting, extraction, merge,
length check, analysis chunking, per-unit analysis. -/
def stage1 (env : Env) : Except (List Char) Artifacts := do
  let _ ← env.prepare
  let ranges ← split_pdf_15pages env.totalPages
  let texts ← extractAll env (chunkFiles env ranges)
  let full ← merge_texts_medical texts
  if full.isEmpty ∨ (pyStrip full).length < 500 then
    Except.error ("❌ Texte extrait insuffisant pour analyse médicale".toList)
  else do
    let units ← create_analysis_chunks full
    if units.isEmpty then
      Except.error (("❌ Impossible de créer des chunks d".toList) ++ apoS
        ++ ("analyse".toList))
    else do
      let ra ← analyzeGo env units 0 [] []
      pure ⟨ranges, texts, full, units, ra.1, ra.2⟩

/-! ### Statistics (`calculate_comprehensive_stats`, source lines 1299-1353) -/

/-- `sum(1 for x in items if x.get(k))` — raises when an item is not a dict. -/
def countTruthyKey (items : List PyVal) (k : List Char) : Except (List Char) Nat :=
  items.foldlM (fun acc p => do
    let v ← pyGetD p k PyVal.pynull
    pure (if pyTruthy v then acc + 1 else acc)) 0

/-- The derived run statistics (field names follow the source dict keys). -/
structure RunStats where
  chunks_pdf_traites : Nat
  chunks_analyses : Nat
  caracteres_totaux : Nat
  extractions_reussies : Nat
  procedures_brutes : Nat
  maintenances_brutes : Nat
  specifications_brutes : Nat
  elements_securite : Nat
  elements_stockage : Nat
  procedures_consolidees : Nat
  procedures_avec_performance : Nat
  procedures_avec_controles : Nat
  procedures_avec_precautions : Nat
  maintenances_consolidees : Nat
  maintenances_avec_timing : Nat
  maintenances_avec_materiels : Nat
  instrument_identifie : Bool
  principe_technique_documente : Bool
  guide_utilisation_complet : Bool
  resume_executif_longueur : Nat
  niveau_detail : List Char
  donnees_performance_analytique : Bool
  precautions_securite_documentees : Bool
  maintenance_preventive_structuree : Bool
  guide_utilisation_quotidienne : Bool

/-- `calculate_comprehensive_stats` (source lines 1299-1353), a pure
projection of the artifacts and the synthesis record. -/
def calculate_comprehensive_stats (pdf_chunks : List (List Nat))
    (analysis_chunks : List AnalysisChunk) (chunk_texts : List ExtractionResult)
    (chunk_analyses : List ChunkRecord) (synthesis : PyVal) :
    Except (List Char) RunStats := do
  let procsV ← pyGetD synthesis ("procedures_analyses".toList) (PyVal.list [])
  let maintV ← pyGetD synthesis ("maintenance_preventive".toList) (PyVal.list [])
  let procsLen ← pyLen procsV
  let maintLen ← pyLen maintV
  let procs ← pyIter procsV
  let maints ← pyIter maintV
  let pwp ← countTruthyKey procs ("performance_analytique".toList)
  let pwc ← countTruthyKey procs ("controles_qualite".toList)
  let pwpre ← countTruthyKey procs ("precautions_critiques".toList)
  let mwt ← countTruthyKey maints ("duree_estimee".toList)
  let mwm ← countTruthyKey maints ("materiels_specifiques".toList)
  let nomInstr ← pyGet2 synthesis ("informations_generales".toList)
    ("nom_instrument".toList) PyVal.pynull
  let principe ← pyGet2 synthesis ("informations_generales".toList)
    ("principe_fonctionnement".toList) PyVal.pynull
  let guide ← pyGetD synthesis ("guide_utilisation_quotidienne".toList) PyVal.pynull
  let resumeV ← pyGetD synthesis ("resume_executif".toList) (PyVal.str [])
  let resumeLen ← pyLen resumeV
  pure
    { chunks_pdf_traites := pdf_chunks.length
      chunks_analyses := analysis_chunks.length
      caracteres_totaux := (chunk_texts.map (·.char_count)).sum
      extractions_reussies :=
        (chunk_texts.filter fun r => !r.text.isEmpty && 50 < r.text.length).length
      procedures_brutes := (chunk_analyses.map fun a => a.procedures.length).sum
      maintenances_brutes := (chunk_analyses.map fun a => a.maintenance.length).sum
      specifications_brutes :=
        (chunk_analyses.map fun a => a.specifications_techniques.length).sum
      elements_securite := (chunk_analyses.map fun a => a.securite.length).sum
      elements_stockage := (chunk_analyses.map fun a => a.stockage_reagents.length).sum
      procedures_consolidees := procsLen
      procedures_avec_performance := pwp
      procedures_avec_controles := pwc
      procedures_avec_precautions := pwpre
      maintenances_consolidees := maintLen
      maintenances_avec_timing := mwt
      maintenances_avec_materiels := mwm
      instrument_identifie := pyTruthy nomInstr
      principe_technique_documente := pyTruthy principe
      guide_utilisation_complet := pyTruthy guide
      resume_executif_longueur := resumeLen
      niveau_detail :=
        if 0 < procsLen ∧ 0 < pwp then ("EXHAUSTIF".toList) else ("BASIQUE".toList)
      donnees_performance_analytique := 0 < pwp
      precautions_securite_documentees := 0 < pwpre
      maintenance_preventive_structuree := 0 < maintLen
      guide_utilisation_quotidienne := pyTruthy guide }

/-- The output file name (source line 1258). -/
def outputPdfName (env : Env) : List Char :=
  let nm := basename env.pdfName
  let stem := match rfindIdx '.' nm with
              | some i => nm.take i
              | none => nm
  stem ++ ("_SYNTHESE_MEDICALE_COMPLETE.pdf".toList)

/-- Whole-run pipeline up to the success payload (steps 1-10 of
`analyze_manual_organized`; the LaTeX collaborator is consulted before the
statistics are computed, as in the source). -/
def runPipeline (env : Env) : Except (List Char) (Artifacts × PyVal × RunStats) := do
  let a ← stage1 env
  let synthesis ← synthesize_final_medical a.chunk_analyses env.synthLLM
  if env.latexOk then do
    let stats ← calculate_comprehensive_stats a.pdf_chunks a.analysis_chunks
      a.chunk_texts a.chunk_analyses synthesis
    pure (a, synthesis, stats)
  else Except.error ("❌ ÉCHEC GÉNÉRATION PDF MÉDICAL - Aucun fichier créé".toList)

/-- The run result dict returned upward (source lines 1277-1297). -/
structure RunResult where
  success : Bool
  pdf_medical : Option (List Char)
  statistiques : Option RunStats
  synthesis : Option PyVal
  validation : List Char
  error : Option (List Char)
  pdf_path : Option (List Char)

/-- `analyze_manual_organized` (source lines 1192-1297): every exception of
the pipeline is caught and turned into the failure dict; a completed run is
reported with the success dict. -/
def analyze_manual_organized (env : Env) : RunResult :=
  match runPipeline env with
  | Except.ok payload =>
    { success := true
      pdf_medical := some (outputPdfName env)
      statistiques := some payload.2.2
      synthesis := some payload.2.1
      validation := ("CONFORME USAGE MÉDICAL PROFESSIONNEL".toList)
      error := none
      pdf_path := none }
  | Except.error e =>
    { success := false
      pdf_medical := none
      statistiques := none
      synthesis := none
      validation := ("ÉCHEC - NON CONFORME".toList)
      error := some e
      pdf_path := some env.pdfName }

/-! ## Claims -/

/-- Page list of chunk `i` in the multi-chunk branch of `split_pdf_15pages`. -/
def splitChunkPages (P i : Nat) : List Nat :=
  List.range' (i * max_pages_per_request + 1)
    (min (i * max_pages_per_request + max_pages_per_request) P - i * max_pages_per_request)

theorem range'_append_one (s m n : Nat) :
    List.range' s m ++ List.range' (s + m) n = List.range' s (m + n) := by
  have h := List.range'_append s m n 1
  rw [one_mul] at h
  rw [Nat.add_comm m n]
  exact h

theorem splitChunk_join (P : Nat) (num : Nat) (hnum : 15 * num ≥ P)
    (hlow : ∀ k, k < num → 15 * k < P) :
    ((List.range num).map (splitChunkPages P)).flatten = List.range' 1 P := by
  suffices h : ∀ k, k ≤ num → ((List.range k).map (splitChunkPages P)).flatten
      = List.range' 1 (min (15 * k) P) by
    have := h num (le_refl num)
    rwa [min_eq_right hnum] at this
  intro k hk
  induction k with
  | zero => simp
  | succ j ih =>
    have hj : j ≤ num := Nat.le_of_succ_le hk
    have hjlt : 15 * j < P := hlow j (Nat.lt_of_lt_of_le (Nat.lt_succ_self j) hk)
    rw [List.range_succ, List.map_append, List.flatten_append, ih hj]
    simp only [List.map_cons, List.map_nil, List.flatten_cons, List.flatten_nil, List.append_nil]
    rw [min_eq_left (le_of_lt hjlt)]
    unfold splitChunkPages
    have h1 : j * max_pages_per_request + 1 = 1 + 15 * j := by
      simp [max_pages_per_request]; ring
    rw [h1]
    have h2 := range'_append_one 1 (15 * j)
      (min (j * max_pages_per_request + max_pages_per_request) P - j * max_pages_per_request)
    rw [h2]
    congr 1
    simp [max_pages_per_request]
    omega

/-- C4: for a source PDF with `P > 0` pages and the limit `L = 15`, the
splitter returns exactly one sub-document spanning the whole document when
`P ≤ L`, and exactly `ceil(P/L)` sub-documents when `P > L`; the page
ranges are consecutive, non-overlapping and cover pages `1..P` in order
(their concatenation is exactly `[1, ..., P]`), every chunk except the last
holds exactly 15 pages, and the last holds the remainder
`P - (ceil(P/L) - 1) * 15`. -/
theorem C4_split_pdf_15pages (P : Nat) (hP : 0 < P) :
    (P ≤ 15 → split_pdf_15pages P = Except.ok [List.range' 1 P]) ∧
    (15 < P → ∃ cs, split_pdf_15pages P = Except.ok cs ∧
      cs.length = (P + 14) / 15 ∧
      cs.flatten = List.range' 1 P ∧
      (∀ i, i + 1 < cs.length → (cs.getD i []).length = 15) ∧
      (cs.getD (cs.length - 1) []).length = P - (cs.length - 1) * 15) := by
  constructor
  · intro hle
    unfold split_pdf_15pages
    rw [if_neg (by omega), if_pos (by simpa [max_pages_per_request] using hle)]
  · intro hgt
    set num := (P + 14) / 15 with hnumdef
    have hmod := Nat.div_add_mod (P + 14) 15
    have hnum15 : 15 * num ≥ P := by omega
    have hnumlow : ∀ k, k < num → 15 * k < P := by
      intro k hk
      have : k + 1 ≤ num := hk
      have : 15 * (k + 1) ≤ 15 * num := Nat.mul_le_mul_left 15 this
      omega
    refine ⟨(List.range num).map (splitChunkPages P), ?_, ?_, ?_, ?_, ?_⟩
    · unfold split_pdf_15pages
      rw [if_neg (by omega), if_neg (by simp [max_pages_per_request]; omega)]
      rfl
    · simp
    · exact splitChunk_join P num hnum15 hnumlow
    · intro i hi
      simp only [List.length_map, List.length_range] at hi
      have hgetD : ((List.range num).map (splitChunkPages P)).getD i [] = splitChunkPages P i := by
        rw [List.getD_eq_getElem?_getD]
        rw [List.getElem?_map]
        rw [List.getElem?_range (by omega)]
        rfl
      rw [hgetD]
      unfold splitChunkPages
      simp only [List.length_range']
      simp [max_pages_per_request]
      have h15 : 15 * (i + 1) < P := hnumlow (i + 1) (by omega)
      omega
    · have hnumpos : 0 < num := by
        have := hnumlow 0
        by_contra hz
        push_neg at hz
        interval_cases num
        omega
      simp only [List.length_map, List.length_range]
      have hgetD : ((List.range num).map (splitChunkPages P)).getD (num - 1) []
          = splitChunkPages P (num - 1) := by
        rw [List.getD_eq_getElem?_getD]
        rw [List.getElem?_map]
        rw [List.getElem?_range (by omega)]
        rfl
      rw [hgetD]
      unfold splitChunkPages
      simp only [List.length_range']
      simp [max_pages_per_request]
      omega

/-- Witness for C4 at the concrete inputs `P = 10` and `P = 40`. -/
theorem C4_split_pdf_15pages_witness :
    (split_pdf_15pages 10 = Except.ok [List.range' 1 10]) ∧
    (∃ cs, split_pdf_15pages 40 = Except.ok cs ∧
      cs.length = (40 + 14) / 15 ∧
      cs.flatten = List.range' 1 40 ∧
      (∀ i, i + 1 < cs.length → (cs.getD i []).length = 15) ∧
      (cs.getD (cs.length - 1) []).length = 40 - (cs.length - 1) * 15) :=
  ⟨(C4_split_pdf_15pages 10 (by decide)).1 (by decide),
   (C4_split_pdf_15pages 40 (by decide)).2 (by decide)⟩

theorem compile_procedures_aux (l : List ChunkRecord) (acc : Compiled) :
    (l.foldl compileStep acc).all_procedures
      = acc.all_procedures ++ (l.map (·.procedures)).flatten := by
  induction l generalizing acc with
  | nil => simp
  | cons a t ih => simp [List.foldl_cons, ih, compileStep]

theorem compile_maintenance_aux (l : List ChunkRecord) (acc : Compiled) :
    (l.foldl compileStep acc).all_maintenance
      = acc.all_maintenance ++ (l.map (·.maintenance)).flatten := by
  induction l generalizing acc with
  | nil => simp
  | cons a t ih => simp [List.foldl_cons, ih, compileStep]

theorem compile_specs_aux (l : List ChunkRecord) (acc : Compiled) :
    (l.foldl compileStep acc).all_specs
      = acc.all_specs ++ (l.map (·.specifications_techniques)).flatten := by
  induction l generalizing acc with
  | nil => simp
  | cons a t ih => simp [List.foldl_cons, ih, compileStep]

theorem compile_security_aux (l : List ChunkRecord) (acc : Compiled) :
    (l.foldl compileStep acc).all_security
      = acc.all_security ++ (l.map (·.securite)).flatten := by
  induction l generalizing acc with
  | nil => simp
  | cons a t ih => simp [List.foldl_cons, ih, compileStep]

theorem compile_calibration_aux (l : List ChunkRecord) (acc : Compiled) :
    (l.foldl compileStep acc).all_calibration
      = acc.all_calibration ++ (l.map (·.calibration)).flatten := by
  induction l generalizing acc with
  | nil => simp
  | cons a t ih => simp [List.foldl_cons, ih, compileStep]

theorem compile_storage_aux (l : List ChunkRecord) (acc : Compiled) :
    (l.foldl compileStep acc).all_storage
      = acc.all_storage ++ (l.map (·.stockage_reagents)).flatten := by
  induction l generalizing acc with
  | nil => simp
  | cons a t ih => simp [List.foldl_cons, ih, compileStep]

theorem compile_troubleshooting_aux (l : List ChunkRecord) (acc : Compiled) :
    (l.foldl compileStep acc).all_troubleshooting
      = acc.all_troubleshooting ++ (l.map (·.troubleshooting)).flatten := by
  induction l generalizing acc with
  | nil => simp
  | cons a t ih => simp [List.foldl_cons, ih, compileStep]

theorem flatten_length_sum {α : Type} (ls : List (List α)) :
    ls.flatten.length = (ls.map List.length).sum := by
  induction ls with
  | nil => simp
  | cons a t ih => simp [ih]

/-- C5: for every list of ChunkRecords (each a dict, as normalization
guarantees), the consolidation of the seven list-typed fields is plain
ordered concatenation across chunks — no deduplication, no drops: each
consolidated list is the `flatten` of the per-chunk lists in order, and in
particular the consolidated procedure count equals the sum of per-chunk
procedure counts. -/
theorem C5_consolidation_concat (analyses : List ChunkRecord) :
    (compileAnalyses analyses).all_procedures
        = (analyses.map (·.procedures)).flatten ∧
    (compileAnalyses analyses).all_maintenance
        = (analyses.map (·.maintenance)).flatten ∧
    (compileAnalyses analyses).all_specs
        = (analyses.map (·.specifications_techniques)).flatten ∧
    (compileAnalyses analyses).all_security
        = (analyses.map (·.securite)).flatten ∧
    (compileAnalyses analyses).all_storage
        = (analyses.map (·.stockage_reagents)).flatten ∧
    (compileAnalyses analyses).all_calibration
        = (analyses.map (·.calibration)).flatten ∧
    (compileAnalyses analyses).all_troubleshooting
        = (analyses.map (·.troubleshooting)).flatten ∧
    (compileAnalyses analyses).all_procedures.length
        = (analyses.map fun a => a.procedures.length).sum := by
  refine ⟨?_, ?_, ?_, ?_, ?_, ?_, ?_, ?_⟩
  · simpa [Compiled.empty] using compile_procedures_aux analyses Compiled.empty
  · simpa [Compiled.empty] using compile_maintenance_aux analyses Compiled.empty
  · simpa [Compiled.empty] using compile_specs_aux analyses Compiled.empty
  · simpa [Compiled.empty] using compile_security_aux analyses Compiled.empty
  · simpa [Compiled.empty] using compile_storage_aux analyses Compiled.empty
  · simpa [Compiled.empty] using compile_calibration_aux analyses Compiled.empty
  · simpa [Compiled.empty] using compile_troubleshooting_aux analyses Compiled.empty
  · rw [show (compileAnalyses analyses).all_procedures
        = (analyses.map (·.procedures)).flatten from by
        simpa [Compiled.empty] using compile_procedures_aux analyses Compiled.empty]
    rw [flatten_length_sum, List.map_map]
    rfl

/-! ### C9: consolidation of the scalar identity fields -/

/-- The filter the consolidation loop applies to an instrument value
(source line 790): truthy, strips to something non-empty, and does not
start with `"Non"`. -/
def instFilter (v : List Char) : Bool :=
  !v.isEmpty && !(pyStrip v).isEmpty && !startsWithB ("Non".toList) v

/-- The values offered for key `k`, in order, that pass the filter. -/
def instCandidates (k : List Char) (items : List (List Char × List Char)) :
    List (List Char) :=
  (items.filter fun kv => kv.1 = k && instFilter kv.2).map (·.2)

/-- One reduction step of "widest value wins": replace the current holder
exactly when it is absent or strictly shorter. -/
def stepBest (best : Option (List Char)) (v : List Char) : Option (List Char) :=
  if best.isNone ∨ (best.getD []).length < v.length then some v else best

/-- The longest value, first seen on ties. -/
def firstLongest (vs : List (List Char)) : Option (List Char) :=
  vs.foldl stepBest none

theorem lookupKV_setKV_self {α : Type} (kvs : List (List Char × α)) (k : List Char) (v : α) :
    lookupKV (setKV kvs k v) k = some v := by
  induction kvs with
  | nil => simp [setKV, lookupKV]
  | cons p t ih =>
    by_cases h : p.1 = k
    · simp [setKV, h, lookupKV]
    · simp [setKV, h, lookupKV, ih]

theorem lookupKV_setKV_ne {α : Type} (kvs : List (List Char × α)) (k k' : List Char)
    (v : α) (hne : k' ≠ k) : lookupKV (setKV kvs k' v) k = lookupKV kvs k := by
  induction kvs with
  | nil => simp [setKV, lookupKV, hne]
  | cons p t ih =>
    obtain ⟨pk, pv⟩ := p
    by_cases h : pk = k'
    · subst h
      simp [setKV, lookupKV, hne, ih]
    · simp [setKV, h, lookupKV, ih]

theorem instFilter_iff (v : List Char) :
    instFilter v = true ↔
      (v ≠ [] ∧ pyStrip v ≠ [] ∧ ¬ startsWithB ("Non".toList) v = true) := by
  unfold instFilter
  simp only [Bool.and_eq_true, Bool.not_eq_true']
  constructor
  · rintro ⟨⟨h1, h2⟩, h3⟩
    refine ⟨?_, ?_, ?_⟩
    · simpa [List.isEmpty_iff] using h1
    · simpa [List.isEmpty_iff] using h2
    · intro hc
      rw [hc] at h3
      cases h3
  · rintro ⟨h1, h2, h3⟩
    refine ⟨⟨?_, ?_⟩, ?_⟩
    · simpa [List.isEmpty_iff] using h1
    · simpa [List.isEmpty_iff] using h2
    · cases hsw : startsWithB ("Non".toList) v
      · rfl
      · exact absurd hsw h3

theorem lookupKV_instStep (info : List (List Char × List Char))
    (kv : List Char × List Char) (k : List Char) :
    lookupKV (instStep info kv) k =
      if kv.1 = k ∧ instFilter kv.2 then stepBest (lookupKV info k) kv.2
      else lookupKV info k := by
  unfold instStep
  by_cases hf : kv.2 ≠ [] ∧ pyStrip kv.2 ≠ [] ∧ ¬ startsWithB ("Non".toList) kv.2 = true
  · have hfb : instFilter kv.2 = true := (instFilter_iff kv.2).mpr hf
    rw [if_pos hf]
    by_cases hk : kv.1 = k
    · subst hk
      by_cases hb : (lookupKV info kv.1).isNone = true ∨
          ((lookupKV info kv.1).getD []).length < kv.2.length
      · rw [if_pos hb, lookupKV_setKV_self, if_pos ⟨rfl, hfb⟩]
        unfold stepBest
        rw [if_pos hb]
      · rw [if_neg hb, if_pos ⟨rfl, hfb⟩]
        unfold stepBest
        rw [if_neg hb]
    · by_cases hb : (lookupKV info kv.1).isNone = true ∨
          ((lookupKV info kv.1).getD []).length < kv.2.length
      · rw [if_pos hb, lookupKV_setKV_ne _ _ _ _ hk, if_neg (fun hc => hk hc.1)]
      · rw [if_neg hb, if_neg (fun hc => hk hc.1)]
  · have hfb : ¬ instFilter kv.2 = true := fun hc => hf ((instFilter_iff kv.2).mp hc)
    rw [if_neg hf, if_neg (fun hc => hfb hc.2)]

theorem lookupKV_foldl_instStep (items : List (List Char × List Char))
    (info : List (List Char × List Char)) (k : List Char) :
    lookupKV (items.foldl instStep info) k
      = (instCandidates k items).foldl stepBest (lookupKV info k) := by
  induction items generalizing info with
  | nil => simp [instCandidates]
  | cons kv t ih =>
    rw [List.foldl_cons, ih]
    unfold instCandidates
    by_cases hc : kv.1 = k ∧ instFilter kv.2
    · rw [List.filter_cons_of_pos (by simp [hc.1, hc.2]), List.map_cons, List.foldl_cons]
      rw [lookupKV_instStep, if_pos hc]
    · rw [List.filter_cons_of_neg (by
        simp only [Bool.and_eq_true, decide_eq_true_eq]
        tauto)]
      rw [lookupKV_instStep, if_neg hc]

theorem compile_instr_aux (l : List ChunkRecord) (acc : Compiled) :
    (l.foldl compileStep acc).instrument_info
      = ((l.map (·.instrument)).flatten).foldl instStep acc.instrument_info := by
  induction l generalizing acc with
  | nil => simp
  | cons a t ih =>
    rw [List.foldl_cons, ih]
    simp [compileStep, List.foldl_append]

theorem foldl_stepBest_some (vs : List (List Char)) (b w : List Char)
    (h : vs.foldl stepBest (some b) = some w) :
    (w = b ∨ w ∈ vs) ∧ (∀ v ∈ vs, v.length ≤ w.length) ∧ b.length ≤ w.length := by
  induction vs generalizing b with
  | nil =>
    simp only [List.foldl_nil, Option.some_inj] at h
    exact ⟨Or.inl h.symm, by simp, by rw [h]⟩
  | cons v t ih =>
    rw [List.foldl_cons] at h
    unfold stepBest at h
    by_cases hb : (some b : Option (List Char)).isNone ∨
        ((some b : Option (List Char)).getD []).length < v.length
    · rw [if_pos hb] at h
      obtain ⟨h1, h2, h3⟩ := ih v h
      refine ⟨?_, ?_, ?_⟩
      · rcases h1 with h1 | h1
        · exact Or.inr (by simp [h1])
        · exact Or.inr (by simp [h1])
      · intro u hu
        rcases List.mem_cons.mp hu with hu | hu
        · rw [hu]; exact h3
        · exact h2 u hu
      · simp only [Option.isNone_some, Option.getD_some] at hb
        rcases hb with hb | hb
        · cases hb
        · omega
    · rw [if_neg hb] at h
      obtain ⟨h1, h2, h3⟩ := ih b h
      simp only [Option.isNone_some, Option.getD_some] at hb
      push_neg at hb
      refine ⟨?_, ?_, h3⟩
      · rcases h1 with h1 | h1
        · exact Or.inl h1
        · exact Or.inr (by simp [h1])
      · intro u hu
        rcases List.mem_cons.mp hu with hu | hu
        · rw [hu]; omega
        · exact h2 u hu

theorem firstLongest_spec (vs : List (List Char)) (w : List Char)
    (h : firstLongest vs = some w) : w ∈ vs ∧ ∀ v ∈ vs, v.length ≤ w.length := by
  unfold firstLongest at h
  cases vs with
  | nil => simp at h
  | cons v t =>
    rw [List.foldl_cons] at h
    have hstep : stepBest none v = some v := by simp [stepBest]
    rw [hstep] at h
    obtain ⟨h1, h2, _⟩ := foldl_stepBest_some t v w h
    refine ⟨?_, ?_⟩
    · rcases h1 with h1 | h1
      · simp [h1]
      · exact List.mem_cons_of_mem _ h1
    · intro u hu
      rcases List.mem_cons.mp hu with hu | hu
      · rw [hu]
        rcases h1 with h1 | h1
        · simp [h1]
        · exact (foldl_stepBest_some t v w h).2.2
      · exact h2 u hu

/-- C9 (amended): for each scalar identity key, the consolidated value is
the longest value seen across the instrument dicts of all ChunkRecords in
order among those passing the code's filter — non-empty, stripping to
something non-empty, and not starting with `"Non"` — with the first seen
kept on ties (the fold with a strict comparison); any returned winner is a
candidate of maximal length.  The filter does not exclude the
`"Instrument non identifié"` sentinel, which therefore can win
(see the counterexample). -/
theorem C9_widest_value_wins (analyses : List ChunkRecord) (k : List Char) :
    lookupKV (compileAnalyses analyses).instrument_info k
      = firstLongest (instCandidates k ((analyses.map (·.instrument)).flatten)) ∧
    (∀ w, lookupKV (compileAnalyses analyses).instrument_info k = some w →
      w ∈ instCandidates k ((analyses.map (·.instrument)).flatten) ∧
      ∀ v ∈ instCandidates k ((analyses.map (·.instrument)).flatten),
        v.length ≤ w.length) := by
  have hmain : lookupKV (compileAnalyses analyses).instrument_info k
      = firstLongest (instCandidates k ((analyses.map (·.instrument)).flatten)) := by
    unfold compileAnalyses
    rw [compile_instr_aux]
    have := lookupKV_foldl_instStep ((analyses.map (·.instrument)).flatten)
      Compiled.empty.instrument_info k
    rw [this]
    simp [Compiled.empty, lookupKV, firstLongest]
  refine ⟨hmain, ?_⟩
  intro w hw
  rw [hmain] at hw
  exact firstLongest_spec _ _ hw

/-- Sentinel strings per the claim's words: the `'unidentified'` marker
(`"Instrument non identifié"`, set by normalization when the instrument has
no name) and the `'unspecified'` markers (strings starting with `"Non"`,
e.g. `"Non spécifié"`). -/
def specIsSentinel (v : List Char) : Bool :=
  v = ("Instrument non identifié".toList) || startsWithB ("Non".toList) v

/-- The reduction rule exactly as the claim states it: for a key, the
longest non-empty, non-sentinel string seen across the records in order,
first seen kept on ties. -/
def specWidestWins (k : List Char) (items : List (List Char × List Char)) :
    Option (List Char) :=
  firstLongest ((items.filter fun kv => kv.1 = k && !kv.2.isEmpty
    && !specIsSentinel kv.2).map (·.2))

/-- A ChunkRecord with empty list fields and the given instrument dict. -/
def mkInstrRecord (inst : List (List Char × List Char)) : ChunkRecord :=
  { instrument := inst
    procedures := []
    maintenance := []
    specifications_techniques := []
    securite := []
    stockage_reagents := []
    validation_clinique := PyVal.dict []
    calibration := []
    troubleshooting := []
    resume_section := [] }

/-- A record whose instrument name is the normalization sentinel. -/
def recSentinel : ChunkRecord :=
  mkInstrRecord [(("nom".toList), ("Instrument non identifié".toList))]

/-- A record carrying a real instrument name. -/
def recNamed : ChunkRecord :=
  mkInstrRecord [(("nom".toList), ("ABC X1".toList))]

/-- C9 counterexample: with one record normalized to the
`"Instrument non identifié"` sentinel and one record naming the instrument
`"ABC X1"`, the claim's rule picks the real name (the only non-sentinel
candidate), but the code's filter only rejects strings starting with
`"Non"`, so the 24-character sentinel wins over the 6-character real name:
the consolidated value is the sentinel, not the longest non-sentinel
string. -/
theorem C9_counterexample :
    lookupKV (compileAnalyses [recSentinel, recNamed]).instrument_info ("nom".toList)
      = some ("Instrument non identifié".toList) ∧
    specWidestWins ("nom".toList)
        (([recSentinel, recNamed].map (·.instrument)).flatten)
      = some ("ABC X1".toList) ∧
    lookupKV (compileAnalyses [recSentinel, recNamed]).instrument_info ("nom".toList)
      ≠ specWidestWins ("nom".toList)
        (([recSentinel, recNamed].map (·.instrument)).flatten) := by
  refine ⟨by decide, by decide, by decide⟩

/-- C7: for every run of the full pipeline, the result has exactly one of
the synthesis record and the error populated according to the success
flag: on `success = true` it carries the synthesis record and the
statistics and no error; on `success = false` it carries an error string
and neither record nor statistics.  `analyze_manual_organized` is a total
function of the environment: every pipeline exception is caught and turned
into the failure shape rather than propagated. -/
theorem C7_run_result_shape (env : Env) :
    ((analyze_manual_organized env).success = true →
      (analyze_manual_organized env).synthesis.isSome = true ∧
      (analyze_manual_organized env).statistiques.isSome = true ∧
      (analyze_manual_organized env).error = none) ∧
    ((analyze_manual_organized env).success = false →
      (analyze_manual_organized env).error.isSome = true ∧
      (analyze_manual_organized env).synthesis = none ∧
      (analyze_manual_organized env).statistiques = none) := by
  unfold analyze_manual_organized
  cases runPipeline env <;> simp

theorem mem_step4Go {c : Char} : ∀ (b : Bool) (l : List Char), c ∈ step4Go b l → c ∈ l
  | _, [], h => by simp [step4Go] at h
  | false, x :: rest, h => by
    rw [step4Go] at h
    split at h
    · exact List.mem_cons_of_mem _ (mem_step4Go true rest h)
    · rcases List.mem_cons.mp h with h | h
      · simp [h]
      · exact List.mem_cons_of_mem _ (mem_step4Go false rest h)
  | true, x :: rest, h => by
    rw [step4Go] at h
    split at h
    · rcases List.mem_cons.mp h with h | h
      · simp [h]
      · exact List.mem_cons_of_mem _ (mem_step4Go true rest h)
    · rcases List.mem_cons.mp h with h | h
      · simp [h]
      · exact List.mem_cons_of_mem _ (mem_step4Go false rest h)

theorem mem_step5Go {c : Char} : ∀ (b : Bool) (l : List Char), c ∈ step5Go b l → c ∈ l
  | _, [], h => by simp [step5Go] at h
  | b, x :: rest, h => by
    rw [step5Go] at h
    by_cases hx : x = ','
    · rw [if_pos hx] at h
      cases b with
      | true =>
        rw [if_pos rfl] at h
        exact List.mem_cons_of_mem _ (mem_step5Go true rest h)
      | false =>
        rw [if_neg (by simp)] at h
        rcases List.mem_cons.mp h with h | h
        · rw [h, hx]
          simp
        · exact List.mem_cons_of_mem _ (mem_step5Go true rest h)
    · rw [if_neg hx] at h
      rcases List.mem_cons.mp h with h | h
      · simp [h]
      · exact List.mem_cons_of_mem _ (mem_step5Go false rest h)

theorem step3_no_ctrl (l : List Char) : ∀ c ∈ step3 l, isCtrlChar c = false := by
  intro c hc
  unfold step3 at hc
  rcases List.mem_map.mp hc with ⟨x, _, hx⟩
  by_cases h : isCtrlChar x
  · rw [if_pos h] at hx
    rw [← hx]
    decide
  · rw [if_neg h] at hx
    rw [← hx]
    exact Bool.not_eq_true _ ▸ h

/-- C10 (implicit): for every input string, the output of
`fix_common_json_errors` contains no control characters — no code points in
U+0000-U+001F or U+007F-U+009F.  The control-character pass replaces each
of them (including every newline) by a space, and the two later passes only
delete commas, so the repaired text is in particular always a single line
(it contains no newline). -/
theorem C10_fix_no_control_chars (s : List Char) :
    (∀ c ∈ fix_common_json_errors s, isCtrlChar c = false) ∧
    '\n' ∉ fix_common_json_errors s := by
  have hmain : ∀ c ∈ fix_common_json_errors s, isCtrlChar c = false := by
    intro c hc
    unfold fix_common_json_errors step5 step4 at hc
    have h4 := mem_step4Go _ _ (mem_step5Go _ _ hc)
    exact step3_no_ctrl _ c h4
  refine ⟨hmain, ?_⟩
  intro hmem
  have := hmain '\n' hmem
  cases this

/-! ### C3: idempotence of the local JSON repair pass -/

/-- Does the text contain a comma followed by optional whitespace and a
closing `}` or `]`?  (the match test of repair steps 1 and 4). -/
def hasCommaCloser : List Char → Bool
  | [] => false
  | c :: rest => (c = ',' && commaCloserAfter rest) || hasCommaCloser rest

/-- Does the text contain two adjacent commas? -/
def hasDoubleComma : List Char → Bool
  | [] => false
  | [_] => false
  | c1 :: c2 :: rest => (c1 = ',' && c2 = ',') || hasDoubleComma (c2 :: rest)

/-- Does the text contain a control character? -/
def hasCtrl (l : List Char) : Bool := l.any isCtrlChar

theorem step1Go_id (l : List Char) (h : hasCommaCloser l = false) :
    step1Go false l = l := by
  induction l with
  | nil => rfl
  | cons c rest ih =>
    rw [hasCommaCloser] at h
    simp only [Bool.or_eq_false_iff, Bool.and_eq_false_iff] at h
    rw [step1Go, if_neg ?hcond, ih h.2]
    case hcond =>
      rintro ⟨hc, hcl⟩
      rcases h.1 with h1 | h1
      · rw [hc] at h1; simp at h1
      · rw [hcl] at h1; cases h1

theorem commaBracketAfter_imp (l : List Char) (h : commaBracketAfter l = true) :
    commaCloserAfter l = true := by
  unfold commaBracketAfter at h
  unfold commaCloserAfter
  cases hd : l.dropWhile isPySpace with
  | nil => rw [hd] at h; cases h
  | cons c rest =>
    rw [hd] at h
    simp only [decide_eq_true_eq] at h
    simp [h]

theorem step4Go_id (l : List Char) (h : hasCommaCloser l = false) :
    step4Go false l = l := by
  induction l with
  | nil => rfl
  | cons c rest ih =>
    rw [hasCommaCloser] at h
    simp only [Bool.or_eq_false_iff, Bool.and_eq_false_iff] at h
    rw [step4Go, if_neg ?hcond, ih h.2]
    case hcond =>
      rintro ⟨hc, hbr⟩
      have hcl := commaBracketAfter_imp rest hbr
      rcases h.1 with h1 | h1
      · rw [hc] at h1; simp at h1
      · rw [hcl] at h1; cases h1

theorem splitLines_no_newline (l : List Char) (h : '\n' ∉ l) : splitLines l = [l] := by
  induction l with
  | nil => rfl
  | cons c rest ih =>
    have hc : ¬ c = '\n' := fun hc => h (by simp [hc])
    have hr : '\n' ∉ rest := fun hr => h (List.mem_cons_of_mem _ hr)
    rw [splitLines, if_neg hc, ih hr]

theorem step2_id (l : List Char) (hn : '\n' ∉ l) (hkv : containsSub sepKV l = false) :
    step2 l = l := by
  unfold step2
  rw [splitLines_no_newline l hn]
  simp only [List.map_cons, List.map_nil]
  rw [show fixLine l = l from by
    unfold fixLine
    rw [if_neg]
    rintro ⟨hc, _⟩
    rw [hkv] at hc
    cases hc]
  rfl

theorem step3_id (l : List Char) (h : hasCtrl l = false) : step3 l = l := by
  unfold step3
  induction l with
  | nil => rfl
  | cons c rest ih =>
    unfold hasCtrl at h
    simp only [List.any_cons, Bool.or_eq_false_iff] at h
    simp only [List.map_cons]
    rw [if_neg (by simp [h.1]), ih (by unfold hasCtrl; exact h.2)]

theorem step5Go_id (l : List Char) (h : hasDoubleComma l = false) :
    ∀ b : Bool, (b = true → l.head? ≠ some ',') → step5Go b l = l := by
  induction l with
  | nil => intro b _; rfl
  | cons c rest ih =>
    intro b hb
    have hdcrest : hasDoubleComma rest = false := by
      cases rest with
      | nil => rfl
      | cons c2 rest2 =>
        rw [hasDoubleComma] at h
        simp only [Bool.or_eq_false_iff] at h
        exact h.2
    by_cases hc : c = ','
    · have hbf : b = false := by
        cases b
        · rfl
        · exact absurd (by simp [hc]) (hb rfl)
      subst hbf
      rw [step5Go, if_pos hc]
      rw [show (if (false : Bool) = true then step5Go true rest else
          ',' :: step5Go true rest) = ',' :: step5Go true rest from by simp]
      have hrest : step5Go true rest = rest := by
        apply ih hdcrest
        intro _
        cases rest with
        | nil => simp
        | cons c2 rest2 =>
          rw [hasDoubleComma] at h
          simp only [Bool.or_eq_false_iff, Bool.and_eq_false_iff] at h
          rcases h.1 with h1 | h1
          · rw [hc] at h1; simp at h1
          · simp only [List.head?_cons]
            intro hc2
            injection hc2 with hc2
            rw [hc2] at h1
            simp at h1
      rw [hrest, hc]
    · rw [step5Go, if_neg hc]
      rw [ih hdcrest false (by simp)]

theorem fix_id_of_free (s : List Char) (hctrl : hasCtrl s = false)
    (hkv : containsSub sepKV s = false) (hcc : hasCommaCloser s = false)
    (hdc : hasDoubleComma s = false) : fix_common_json_errors s = s := by
  have hn : '\n' ∉ s := by
    intro hmem
    unfold hasCtrl at hctrl
    have : isCtrlChar '\n' = true := by decide
    have := List.any_eq_true.mpr ⟨'\n', hmem, this⟩
    rw [hctrl] at this
    cases this
  unfold fix_common_json_errors step1 step4 step5
  rw [step1Go_id s hcc, step2_id s hn hkv, step3_id s hctrl,
    step4Go_id s hcc, step5Go_id s hdc false (by simp)]

/-- C3 (amended): the repair pass is idempotent — in fact the identity — on
every input (in particular every valid JSON document) that is free of the
four textual patterns the repairs look for: control characters (including
newlines), the key-value separator `": "`, a comma followed by optional
whitespace and a closing bracket, and adjacent commas.  In general
idempotence fails on valid JSON (see the counterexample): the quote-escaping
pass re-escapes the backslash-quote sequences it produced in the first
run. -/
theorem C3_fix_idempotent_amended (s : List Char) (hjson : validJson s = true)
    (hctrl : hasCtrl s = false) (hkv : containsSub sepKV s = false)
    (hcc : hasCommaCloser s = false) (hdc : hasDoubleComma s = false) :
    fix_common_json_errors (fix_common_json_errors s) = fix_common_json_errors s ∧
    fix_common_json_errors s = s := by
  have hid := fix_id_of_free s hctrl hkv hcc hdc
  rw [hid]
  exact ⟨hid, rfl⟩

/-- Witness for C3 (amended) at the valid JSON document `[1, 2]`. -/
theorem C3_fix_idempotent_amended_witness :
    (validJson (("[1, 2]").toList) = true ∧ hasCtrl (("[1, 2]").toList) = false ∧
     containsSub sepKV (("[1, 2]").toList) = false ∧
     hasCommaCloser (("[1, 2]").toList) = false ∧
     hasDoubleComma (("[1, 2]").toList) = false) ∧
    fix_common_json_errors (fix_common_json_errors (("[1, 2]").toList))
      = fix_common_json_errors (("[1, 2]").toList) :=
  ⟨⟨by decide, by decide, by decide, by decide, by decide⟩,
   (C3_fix_idempotent_amended (("[1, 2]").toList) (by decide) (by decide) (by decide)
     (by decide) (by decide)).1⟩

/-- The valid JSON document `{"a": "x", "b": "y"}`. -/
def cJson : List Char := ("\x7b\"a\": \"x\", \"b\": \"y\"\x7d").toList

/-- C3 counterexample: the two-member object `{"a": "x", "b": "y"}` parses
as valid JSON, yet the repair pass is not idempotent on it: the first pass
splits the single line at the first `": "` and escapes every quote before
the last quote of the remainder, producing `{"a": "x\", \"b\": \"y"}`; the
second pass escapes those backslash-quote sequences again, so
`fix(fix(s)) ≠ fix(s)`. -/
theorem C3_counterexample :
    validJson cJson = true ∧
    fix_common_json_errors (fix_common_json_errors cJson)
      ≠ fix_common_json_errors cJson := by
  refine ⟨by decide, by decide⟩

/-! ### C6: the running context -/

/-- A record whose summary alone is 400 characters long. -/
def recLongResume : ChunkRecord :=
  { mkInstrRecord [] with resume_section := List.replicate 400 'r' }

/-- C6 counterexample: the stored context is not truncated after a unit.
The only fixed character budget in the source is the 300-character window
`context[-300:]` used when the context is embedded in a prompt; yet after
processing a single unit whose summary has 400 characters, the stored
context already holds 427 characters — the claimed bound
"length never exceeds the budget after each unit" is false. -/
theorem C6_counterexample :
    (updateContext [] (("Document médical complet").toList) recLongResume).length = 427 ∧
    300 < (updateContext [] (("Document médical complet").toList) recLongResume).length := by
  refine ⟨by decide, by decide⟩

/-- C6 (amended): the running context is append-only: after each unit the
previous context is a prefix of the new one and the new one additionally
holds the unit description, `": "`, the unit summary, a newline and
(when present) the instrument line — no truncation is ever applied to the
stored context.  The 300-character budget is enforced only at use: the
context fragment embedded in the next prompt is a suffix of the stored
context of length at most 300 (exactly 300 once the context is that
long). -/
theorem C6_context_append_only (ctx desc : List Char) (a : ChunkRecord) :
    (ctx <+: updateContext ctx desc a) ∧
    (ctx.length + desc.length + a.resume_section.length + 3
      ≤ (updateContext ctx desc a).length) ∧
    ((promptContext ctx).length ≤ 300) ∧
    (ctx ≠ [] → promptContext ctx <:+ ctx) ∧
    (300 ≤ ctx.length → (promptContext ctx).length = 300) := by
  refine ⟨?_, ?_, ?_, ?_, ?_⟩
  · unfold updateContext
    cases lookupKV a.instrument ("nom".toList) with
    | none =>
      dsimp only
      rw [show ctx ++ desc ++ (": ").toList ++ a.resume_section ++ ['\n']
          = ctx ++ (desc ++ (": ").toList ++ a.resume_section ++ ['\n']) from by simp]
      exact List.prefix_append _ _
    | some nom =>
      dsimp only
      by_cases h : nom ≠ []
      · rw [if_pos h]
        rw [show ctx ++ desc ++ (": ").toList ++ a.resume_section ++ ['\n']
            ++ ("Instrument: ").toList ++ nom ++ ['\n']
          = ctx ++ (desc ++ (": ").toList ++ a.resume_section ++ ['\n']
            ++ ("Instrument: ").toList ++ nom ++ ['\n']) from by simp]
        exact List.prefix_append _ _
      · rw [if_neg h]
        rw [show ctx ++ desc ++ (": ").toList ++ a.resume_section ++ ['\n']
            = ctx ++ (desc ++ (": ").toList ++ a.resume_section ++ ['\n']) from by simp]
        exact List.prefix_append _ _
  · unfold updateContext
    cases lookupKV a.instrument ("nom".toList) with
    | none =>
      dsimp only
      simp
      omega
    | some nom =>
      dsimp only
      by_cases h : nom ≠ []
      · rw [if_pos h]
        simp
        omega
      · rw [if_neg h]
        simp
        omega
  · unfold promptContext
    by_cases h : ctx.isEmpty
    · rw [if_pos h]
      decide
    · rw [if_neg h]
      simp [List.length_drop]
      omega
  · intro h
    unfold promptContext
    rw [if_neg (by simpa [List.isEmpty_iff] using h)]
    exact List.drop_suffix _ _
  · intro h
    unfold promptContext
    rw [if_neg (by
      intro hc
      rw [List.isEmpty_iff] at hc
      rw [hc] at h
      simp at h)]
    simp [List.length_drop]
    omega

/-- Witness for C6 (amended) at a 350-character stored context. -/
theorem C6_context_append_only_witness :
    ((List.replicate 350 'c' : List Char) ≠ []) ∧
    promptContext (List.replicate 350 'c') <:+ (List.replicate 350 'c') ∧
    (promptContext (List.replicate 350 'c')).length = 300 :=
  ⟨by decide,
   (C6_context_append_only (List.replicate 350 'c') [] (mkInstrRecord [])).2.2.2.1
     (by decide),
   (C6_context_append_only (List.replicate 350 'c') [] (mkInstrRecord [])).2.2.2.2
     (by decide)⟩

/-! ### C8: the text merger -/

/-- The acceptance test the merge applies to one section (source line 1090):
truthy text of strictly more than 50 characters. -/
def sectionOk (r : ExtractionResult) : Bool :=
  !r.text.isEmpty && decide (50 < r.text.length)

/-- The merged stream the loop builds from section `i` on: one structural
header followed by the section text, per section. -/
def mergedFrom (i : Nat) : List ExtractionResult → List Char
  | [] => []
  | r :: rest => sectionHeader i r ++ r.text ++ mergedFrom (i + 1) rest

theorem mergeGo_ok (rs : List ExtractionResult) :
    ∀ (i : Nat) (full : List Char), (∀ r ∈ rs, sectionOk r = true) →
      mergeGo i full rs = Except.ok (full ++ mergedFrom i rs) := by
  induction rs with
  | nil => intro i full _; simp [mergeGo, mergedFrom]
  | cons r rest ih =>
    intro i full hall
    have hr : sectionOk r = true := hall r (by simp)
    unfold sectionOk at hr
    simp only [Bool.and_eq_true, decide_eq_true_eq] at hr
    rw [mergeGo, if_pos ⟨hr.1, hr.2⟩, ih (i + 1) _ (fun x hx => hall x (by simp [hx]))]
    rw [mergedFrom]
    simp

theorem mergeGo_err (rs : List ExtractionResult) :
    ∀ (i : Nat) (full : List Char) (k : Nat) (r : ExtractionResult),
      rs[k]? = some r → sectionOk r = false →
      (∀ j, j < k → ∀ rj, rs[j]? = some rj → sectionOk rj = true) →
      mergeGo i full rs = Except.error (mergeSectionError (i + k)) := by
  induction rs with
  | nil => intro i full k r hk _ _; simp at hk
  | cons x rest ih =>
    intro i full k r hk hbad hbefore
    cases k with
    | zero =>
      simp only [List.getElem?_cons_zero, Option.some_inj] at hk
      subst hk
      unfold sectionOk at hbad
      rw [mergeGo, if_neg ?hcond]
      · rw [Nat.add_zero]
      case hcond =>
        rintro ⟨h1, h2⟩
        rw [Bool.and_eq_false_iff] at hbad
        rcases hbad with hb | hb
        · rw [h1] at hb; cases hb
        · rw [decide_eq_true h2] at hb; cases hb
    | succ k' =>
      have hx : sectionOk x = true := hbefore 0 (Nat.succ_pos k') x (by simp)
      unfold sectionOk at hx
      simp only [Bool.and_eq_true, decide_eq_true_eq] at hx
      rw [mergeGo, if_pos ⟨hx.1, hx.2⟩]
      rw [show i + (k' + 1) = (i + 1) + k' from by omega]
      exact ih (i + 1) (full ++ sectionHeader i x ++ x.text) k' r
        (by simpa using hk) hbad
        (fun j hj rj hrj => hbefore (j + 1) (by omega) rj (by simpa using hrj))

/-- C8 (amended): `merge_texts_medical` rejects a section whose text is
empty or of length at most 50 — strictly more than 50 characters is
required, so a section of exactly 50 characters is also rejected (the
source checks `len > 50`) — raising an error that names the first offending
section; it rejects an empty input list; and when every section passes, it
returns the left-to-right concatenation of one structural header per
section (carrying the 1-based section index, the page count, the exact
character count, and the source file name) followed by that section's text.
In the full pipeline the extraction stage already rejects texts under 100
characters, so the sub-51 merge rejection is reachable only when the merger
is invoked directly; a merge failure surfaces as a failed run by
`C7_run_result_shape`. -/
theorem C8_merge_rejects_short (results : List ExtractionResult) :
    (results = [] → merge_texts_medical results
      = Except.error (("❌ Aucune section valide pour analyse médicale").toList)) ∧
    ((∀ r ∈ results, sectionOk r = true) → results ≠ [] →
      merge_texts_medical results = Except.ok (mergedFrom 0 results)) ∧
    (∀ k r, results[k]? = some r → sectionOk r = false →
      (∀ j, j < k → ∀ rj, results[j]? = some rj → sectionOk rj = true) →
      merge_texts_medical results = Except.error (mergeSectionError k)) := by
  refine ⟨?_, ?_, ?_⟩
  · intro h
    subst h
    rfl
  · intro hall hne
    unfold merge_texts_medical
    rw [if_neg (by simpa [List.isEmpty_iff] using hne)]
    simpa using mergeGo_ok results 0 [] hall
  · intro k r hk hbad hbefore
    unfold merge_texts_medical
    rw [if_neg ?hne]
    · have := mergeGo_err results 0 [] k r hk hbad hbefore
      simpa using this
    case hne =>
      intro hc
      rw [List.isEmpty_iff] at hc
      rw [hc] at hk
      simp at hk

/-- A 60-character section used by the C8 witness. -/
def rec60 : ExtractionResult :=
  ⟨List.replicate 60 'a', 2, ("doc.pdf").toList, 60⟩

/-- Witness for C8 (amended): a run of two valid sections merges into the
headered concatenation, and a list whose second section has an empty text
is rejected naming section 2. -/
theorem C8_merge_rejects_short_witness :
    (merge_texts_medical [rec60, rec60] = Except.ok (mergedFrom 0 [rec60, rec60])) ∧
    (merge_texts_medical [rec60, ⟨[], 1, ("doc.pdf").toList, 0⟩]
      = Except.error (mergeSectionError 1)) :=
  ⟨(C8_merge_rejects_short [rec60, rec60]).2.1 (by decide) (by decide),
   (C8_merge_rejects_short [rec60, ⟨[], 1, ("doc.pdf").toList, 0⟩]).2.2 1
     ⟨[], 1, ("doc.pdf").toList, 0⟩ (by decide) (by decide)
     (by
       intro j hj rj hrj
       interval_cases j
       simp only [List.getElem?_cons_zero, Option.some_inj] at hrj
       rw [← hrj]
       decide)⟩

/-- A section of exactly 50 characters. -/
def rec50 : ExtractionResult :=
  ⟨List.replicate 50 'a', 1, ("doc.pdf").toList, 50⟩

/-- C8 counterexample: a section whose text has exactly 50 characters is
not "below the 50-character minimum", so by the claim the merge should
return the concatenation — but the source requires strictly more than 50
characters (`len > 50`) and raises for the 50-character section. -/
theorem C8_counterexample :
    rec50.text.length = 50 ∧
    merge_texts_medical [rec50] = Except.error (mergeSectionError 0) := by
  refine ⟨by decide, by rfl⟩

/-! ### C2: the analysis chunker round-trip -/

theorem dropWhile_replicate_append (p : Char → Bool) (c : Char) (hp : p c = true)
    (n : Nat) (t : List Char) :
    List.dropWhile p (List.replicate n c ++ t) = List.dropWhile p t := by
  induction n with
  | zero => simp
  | succ k ih => rw [List.replicate_succ, List.cons_append, List.dropWhile_cons,
      if_pos hp, ih]

theorem pyStrip_spaces (m : Nat) : pyStrip (List.replicate m ' ') = [] := by
  unfold pyStrip
  rw [show List.replicate m ' ' = List.replicate m ' ' ++ [] from by simp,
    dropWhile_replicate_append isPySpace ' ' (by decide) m []]
  simp

theorem dropWhile_replicate_self (p : Char → Bool) (c : Char) (hp : p c = false)
    (n : Nat) : List.dropWhile p (List.replicate n c) = List.replicate n c := by
  cases n with
  | zero => simp
  | succ k => rw [List.replicate_succ, List.dropWhile_cons, if_neg (by simp [hp])]

theorem pyStrip_block_spaces (n m : Nat) (hn : 0 < n) :
    pyStrip (List.replicate n 'a' ++ List.replicate m ' ') = List.replicate n 'a' := by
  obtain ⟨k, rfl⟩ : ∃ k, n = k + 1 := ⟨n - 1, by omega⟩
  unfold pyStrip
  rw [List.replicate_succ, List.cons_append, List.dropWhile_cons, if_neg (by decide)]
  rw [← List.cons_append, ← List.replicate_succ]
  rw [List.reverse_append, List.reverse_replicate, List.reverse_replicate]
  rw [dropWhile_replicate_append isPySpace ' ' (by decide)]
  rw [dropWhile_replicate_self isPySpace 'a' (by decide)]
  rw [List.reverse_replicate]

theorem markerMatch_none_of_no_eq (l : List Char) (h : ∀ c ∈ l, c ≠ '=') :
    markerMatch l = none := by
  unfold markerMatch
  cases he : eatLit markerPrefix l with
  | none => rfl
  | some l1 =>
    exfalso
    obtain ⟨hsw, _⟩ := eatLit_some he
    cases l with
    | nil => revert hsw; decide
    | cons c cs =>
      have hc := h c (by simp)
      have hmp : markerPrefix = '=' :: markerPrefix.tail := by decide
      rw [hmp] at hsw
      simp only [startsWithB, Bool.and_eq_true, decide_eq_true_eq] at hsw
      exact hc hsw.1.symm

theorem countMarkersGo_zero (l : List Char) (h : ∀ c ∈ l, c ≠ '=') :
    countMarkersGo l = 0 := by
  induction l with
  | nil =>
    conv_lhs => unfold countMarkersGo
    split
    · rename_i rem hm
      rw [show markerMatch ([] : List Char) = none from by decide] at hm
      cases hm
    · rfl
  | cons c rest ih =>
    have hm : markerMatch (c :: rest) = none := markerMatch_none_of_no_eq _ h
    conv_lhs => unfold countMarkersGo
    split
    · rename_i rem hm2
      rw [hm] at hm2
      cases hm2
    · exact ih (fun x hx => h x (List.mem_cons_of_mem _ hx))

/-- The sequence of `max_chars_per_chunk`-sized slices of a text
(the pieces visited by the fixed-size fallback loop). -/
def fallbackSlices (l : List Char) : List (List Char) :=
  if l = [] then []
  else l.take max_chars_per_chunk :: fallbackSlices (l.drop max_chars_per_chunk)
termination_by l.length
decreasing_by
  rename_i hne
  have : 0 < l.length := List.length_pos.mpr hne
  simp [List.length_drop, max_chars_per_chunk]
  omega

theorem fallbackSlices_flatten (l : List Char) : (fallbackSlices l).flatten = l := by
  suffices h : ∀ n (l : List Char), l.length ≤ n → (fallbackSlices l).flatten = l from
    h l.length l (le_refl _)
  intro n
  induction n with
  | zero =>
    intro l hl
    have : l = [] := List.length_eq_zero.mp (by omega)
    subst this
    rw [fallbackSlices]
    simp
  | succ n ih =>
    intro l hl
    by_cases hl0 : l = []
    · subst hl0
      rw [fallbackSlices]
      simp
    · rw [fallbackSlices, if_neg hl0]
      rw [List.flatten_cons]
      rw [ih (l.drop max_chars_per_chunk) (by
        simp [List.length_drop]
        have : 0 < l.length := List.length_pos.mpr hl0
        simp [max_chars_per_chunk]
        omega)]
      exact List.take_append_drop _ _

theorem fallbackGo_texts :
    ∀ n (l : List Char), l.length ≤ n →
      (∀ s ∈ fallbackSlices l, (pyStrip s).isEmpty = false) →
      ∀ acc : List AnalysisChunk,
        (fallbackGo l acc).map (·.text) = acc.map (·.text) ++ fallbackSlices l := by
  intro n
  induction n with
  | zero =>
    intro l hl _ acc
    have : l = [] := List.length_eq_zero.mp (by omega)
    subst this
    rw [fallbackGo, fallbackSlices]
    simp
  | succ n ih =>
    intro l hl hstrip acc
    by_cases hl0 : l = []
    · subst hl0
      rw [fallbackGo, fallbackSlices]
      simp
    · have hslice : fallbackSlices l
          = l.take max_chars_per_chunk :: fallbackSlices (l.drop max_chars_per_chunk) := by
        rw [fallbackSlices, if_neg hl0]
      have hs1 : (pyStrip (l.take max_chars_per_chunk)).isEmpty = false :=
        hstrip _ (by rw [hslice]; simp)
      conv_lhs => rw [fallbackGo]
      rw [if_neg (by simpa [List.isEmpty_iff] using hl0)]
      simp only [hs1, Bool.not_false, if_pos]
      rw [ih (l.drop max_chars_per_chunk) (by
          simp [List.length_drop]
          have : 0 < l.length := List.length_pos.mpr hl0
          simp [max_chars_per_chunk]
          omega)
        (fun s hs => hstrip s (by rw [hslice]; exact List.mem_cons_of_mem _ hs))]
      rw [hslice]
      simp

theorem replicate_ne_nil' (n : Nat) (c : Char) (h : 0 < n) : List.replicate n c ≠ [] := by
  intro h0
  have hlen := congrArg List.length h0
  rw [List.length_replicate, List.length_nil] at hlen
  omega

theorem replicate_isEmpty_false (n : Nat) (c : Char) (h : 0 < n) :
    (List.replicate n c).isEmpty = false := by
  rw [Bool.eq_false_iff]
  intro h0
  rw [List.isEmpty_iff] at h0
  exact replicate_ne_nil' n c h h0

/-- The C2 counterexample text: 350000 letters followed by 100 spaces
(length 350100, above the 350000-character budget, no section markers). -/
def ceText : List Char := List.replicate 350000 'a' ++ List.replicate 100 ' '

theorem ceText_length : ceText.length = 350100 := by
  unfold ceText
  rw [List.length_append, List.length_replicate, List.length_replicate]

theorem ceText_ne_nil : ceText ≠ [] := by
  intro h
  have hlen := congrArg List.length h
  rw [ceText_length, List.length_nil] at hlen
  omega

theorem ceText_take : ceText.take max_chars_per_chunk = List.replicate 350000 'a' := by
  unfold ceText
  rw [show max_chars_per_chunk = (List.replicate 350000 'a').length from by
    rw [List.length_replicate]; rfl]
  exact List.take_left _ _

theorem ceText_drop : ceText.drop max_chars_per_chunk = List.replicate 100 ' ' := by
  unfold ceText
  rw [show max_chars_per_chunk = (List.replicate 350000 'a').length from by
    rw [List.length_replicate]; rfl]
  exact List.drop_left _ _

theorem ceText_strip : pyStrip ceText = List.replicate 350000 'a' :=
  pyStrip_block_spaces 350000 100 (by omega)

theorem ceText_fallbackGo :
    fallbackGo ceText [] =
      [⟨List.replicate 350000 'a', 0, partieDesc 1, (List.replicate 350000 'a').length⟩] := by
  conv_lhs => rw [fallbackGo]
  rw [if_neg (by simpa [List.isEmpty_iff] using ceText_ne_nil)]
  rw [ceText_take, ceText_drop]
  dsimp only
  rw [show pyStrip (List.replicate 350000 'a') = List.replicate 350000 'a' from by
    have h := pyStrip_block_spaces 350000 0 (by omega)
    rwa [show (List.replicate 0 ' ' : List Char) = [] from rfl, List.append_nil] at h]
  rw [replicate_isEmpty_false 350000 'a' (by omega)]
  rw [if_pos (show (!false) = true from rfl)]
  conv_lhs => rw [fallbackGo]
  rw [if_neg (by rw [replicate_isEmpty_false 100 ' ' (by omega)]; simp)]
  dsimp only
  rw [List.take_of_length_le (by rw [List.length_replicate]; decide)]
  rw [pyStrip_spaces]
  rw [if_neg (by simp)]
  rw [List.drop_eq_nil_of_le (by rw [List.length_replicate]; decide)]
  rw [fallbackGo, if_pos (show ([] : List Char).isEmpty = true from rfl)]
  rw [List.nil_append]
  rfl

theorem ceText_chunks :
    create_analysis_chunks ceText =
      Except.ok [⟨List.replicate 350000 'a', 0, partieDesc 1,
        (List.replicate 350000 'a').length⟩] := by
  have hmark : countMarkers ceText = 0 := by
    unfold countMarkers
    apply countMarkersGo_zero
    intro c hc
    rcases List.mem_append.mp hc with h | h
    · rw [List.eq_of_mem_replicate h]; decide
    · rw [List.eq_of_mem_replicate h]; decide
  unfold create_analysis_chunks
  rw [if_neg (by
    rintro (h | h)
    · rw [List.isEmpty_iff] at h
      exact ceText_ne_nil h
    · rw [ceText_strip, List.length_replicate] at h
      omega)]
  rw [if_neg (by rw [ceText_length]; simp [max_chars_per_chunk])]
  dsimp only
  rw [hmark]
  have h10 : ¬ (1 : Nat) < 0 := by omega
  rw [if_neg h10]
  rw [ceText_fallbackGo]
  rw [show ([⟨List.replicate 350000 'a', 0, partieDesc 1,
      (List.replicate 350000 'a').length⟩] : List AnalysisChunk).isEmpty = false from
    List.isEmpty_cons]
  rw [if_neg (by simp)]

/-- C2 counterexample: the accepted merged text of 350100 characters made
of 350000 letters followed by 100 spaces takes the fixed-size fallback path
(it has no section markers), which slices it into a 350000-character slice
and a 100-character whitespace-only slice; the whitespace-only slice is
dropped (`if chunk_text.strip()`), so the concatenation of the produced
units' texts has only 350000 characters and does not reproduce the input —
byte-for-byte round-tripping fails on the fixed-size slicing path. -/
theorem C2_counterexample :
    ∃ cs, create_analysis_chunks ceText = Except.ok cs ∧
      (cs.map (·.text)).flatten ≠ ceText := by
  refine ⟨_, ceText_chunks, ?_⟩
  intro heq
  have hlen := congrArg List.length heq
  rw [ceText_length] at hlen
  simp only [List.map_cons, List.map_nil, List.flatten_cons, List.flatten_nil,
    List.append_nil, List.length_replicate] at hlen
  omega

/-- C2 (amended): concatenating the unit texts in ordinal order reproduces
the accepted input byte-for-byte on the single-unit path (input within the
350000-character budget), and on the fixed-size slicing fallback path
provided no 350000-character slice strips to nothing (such a slice is
dropped — see the counterexample).  No round-trip guarantee is made for the
section-packing path, whose `re.split` removes the matched section-header
delimiters from the stream. -/
theorem C2_roundtrip_amended (text : List Char)
    (hacc : ¬(text.isEmpty = true ∨ (pyStrip text).length < 100)) :
    (text.length ≤ max_chars_per_chunk →
      ∃ cs, create_analysis_chunks text = Except.ok cs ∧
        (cs.map (·.text)).flatten = text) ∧
    (max_chars_per_chunk < text.length → ¬ 1 < countMarkers text →
      (∀ s ∈ fallbackSlices text, (pyStrip s).isEmpty = false) →
      ∃ cs, create_analysis_chunks text = Except.ok cs ∧
        (cs.map (·.text)).flatten = text) := by
  constructor
  · intro hle
    unfold create_analysis_chunks
    rw [if_neg hacc, if_pos hle]
    exact ⟨_, rfl, by simp⟩
  · intro hgt hmark hslices
    have hne : text ≠ [] := by
      intro h0
      rw [h0] at hgt
      simp [max_chars_per_chunk] at hgt
    have hchunks : (fallbackGo text []).map (·.text) = fallbackSlices text := by
      simpa using fallbackGo_texts text.length text (le_refl _) hslices []
    have hne' : fallbackGo text [] ≠ [] := by
      intro h0
      rw [h0] at hchunks
      have hsl : fallbackSlices text = [] := by simpa using hchunks.symm
      rw [fallbackSlices, if_neg hne] at hsl
      cases hsl
    unfold create_analysis_chunks
    rw [if_neg hacc, if_neg (by omega)]
    dsimp only
    rw [if_neg hmark]
    rw [if_neg (by simpa [List.isEmpty_iff] using hne')]
    exact ⟨_, rfl, by rw [hchunks]; exact fallbackSlices_flatten text⟩

/-- Witness for C2 (amended) at a 150-character input (single-unit path). -/
theorem C2_roundtrip_amended_witness :
    (¬((List.replicate 150 'a' : List Char).isEmpty = true ∨
       (pyStrip (List.replicate 150 'a')).length < 100)) ∧
    (∃ cs, create_analysis_chunks (List.replicate 150 'a') = Except.ok cs ∧
      (cs.map (·.text)).flatten = List.replicate 150 'a') :=
  ⟨by decide, (C2_roundtrip_amended _ (by decide)).1 (by decide)⟩

/-! ### C1: the consolidation fallback -/

theorem except_bind_ok {E α β : Type} (a : α) (f : α → Except E β) :
    (Except.ok a >>= f) = f a := rfl

theorem except_mapM_ok_length {E α β : Type} (f : α → Except E β) :
    ∀ (l : List α) (ys : List β), l.mapM f = Except.ok ys → ys.length = l.length := by
  intro l
  induction l with
  | nil =>
    intro ys h
    simp only [List.mapM_nil] at h
    injection h with h
    rw [← h]
    rfl
  | cons a t ih =>
    intro ys h
    rw [List.mapM_cons] at h
    cases hf : f a with
    | error e => rw [hf] at h; simp [bind, Except.bind] at h
    | ok b =>
      rw [hf] at h
      cases ht : t.mapM f with
      | error e =>
        rw [ht] at h
        simp only [except_bind_ok] at h
        simp [bind, Except.bind] at h
      | ok bs =>
        rw [ht] at h
        simp only [except_bind_ok] at h
        simp only [bind, Except.bind, pure, Except.pure] at h
        injection h with h
        rw [← h, List.length_cons, ih bs ht, List.length_cons]

theorem except_mapM_ok_forall {E α β : Type} (f : α → Except E β) (P : β → Prop)
    (hf : ∀ x y, f x = Except.ok y → P y) :
    ∀ (l : List α) (ys : List β), l.mapM f = Except.ok ys → ∀ y ∈ ys, P y := by
  intro l
  induction l with
  | nil =>
    intro ys h y hy
    simp only [List.mapM_nil] at h
    injection h with h
    rw [← h] at hy
    cases hy
  | cons a t ih =>
    intro ys h y hy
    rw [List.mapM_cons] at h
    cases hfa : f a with
    | error e => rw [hfa] at h; simp [bind, Except.bind] at h
    | ok b =>
      rw [hfa] at h
      cases ht : t.mapM f with
      | error e =>
        rw [ht] at h
        simp only [except_bind_ok] at h
        simp [bind, Except.bind] at h
      | ok bs =>
        rw [ht] at h
        simp only [except_bind_ok] at h
        simp only [bind, Except.bind, pure, Except.pure] at h
        injection h with h
        rw [← h] at hy
        rcases List.mem_cons.mp hy with hy | hy
        · rw [hy]; exact hf a b hfa
        · exact ih bs ht y hy

theorem startsWithB_refl_append (pat t : List Char) : startsWithB pat (pat ++ t) = true := by
  induction pat with
  | nil => rfl
  | cons c cs ih => simp [startsWithB, ih]

theorem containsSub_append_left (pat s t : List Char) (h : containsSub pat t = true) :
    containsSub pat (s ++ t) = true := by
  induction s with
  | nil => simpa using h
  | cons c cs ih => simp [containsSub, ih]

theorem containsSub_here (pat t : List Char) : containsSub pat (pat ++ t) = true := by
  cases hp : pat ++ t with
  | nil => cases pat with
    | nil => simp [containsSub, startsWithB]
    | cons c cs => simp at hp
  | cons c cs =>
    rw [containsSub, ← hp, startsWithB_refl_append]
    simp

/-- The fixed sentence fragment every fallback executive summary embeds. -/
def fallbackMarker : List Char := " générée automatiquement. ".toList

theorem resumeFallback_marker (info : List (List Char × List Char))
    (procedures maintenance : List PyVal) :
    containsSub fallbackMarker (resumeFallback info procedures maintenance) = true := by
  unfold resumeFallback fallbackMarker
  rw [show ("Synthèse technique exhaustive de l".toList) ++ apoS ++ ("instrument ".toList)
      ++ (lookupKV info ("nom".toList)).getD ("non identifié".toList)
      ++ (" générée automatiquement. ".toList)
      ++ natToString procedures.length
      ++ (" procédures d".toList) ++ apoS ++ ("analyse, ".toList)
      ++ natToString maintenance.length
      ++ (" opérations de maintenance identifiées. Cette synthèse consolidée couvre les aspects critiques d".toList)
      ++ apoS
      ++ ("utilisation, de maintenance et de sécurité pour usage médical professionnel. Vérification obligatoire avec le manuel complet avant mise en service clinique.".toList)
    = (("Synthèse technique exhaustive de l".toList) ++ apoS ++ ("instrument ".toList)
      ++ (lookupKV info ("nom".toList)).getD ("non identifié".toList))
      ++ ((" générée automatiquement. ".toList)
        ++ (natToString procedures.length
          ++ (" procédures d".toList) ++ apoS ++ ("analyse, ".toList)
          ++ natToString maintenance.length
          ++ (" opérations de maintenance identifiées. Cette synthèse consolidée couvre les aspects critiques d".toList)
          ++ apoS
          ++ ("utilisation, de maintenance et de sécurité pour usage médical professionnel. Vérification obligatoire avec le manuel complet avant mise en service clinique.".toList)))
    from by simp]
  exact containsSub_append_left _ _ _ (containsSub_here _ _)

theorem mkProcFallback_isDict {p y : PyVal} (h : mkProcFallback p = Except.ok y) :
    pyIsDict y = true := by
  unfold mkProcFallback at h
  simp only [bind, Except.bind, pure, Except.pure] at h
  repeat' split at h
  all_goals first
    | exact Except.noConfusion h
    | (injection h with h2; rw [← h2]; rfl)

theorem mkMaintFallback_isDict {p y : PyVal} (h : mkMaintFallback p = Except.ok y) :
    pyIsDict y = true := by
  unfold mkMaintFallback at h
  simp only [bind, Except.bind, pure, Except.pure] at h
  repeat' split at h
  all_goals first
    | exact Except.noConfusion h
    | (injection h with h2; rw [← h2]; rfl)

theorem fallback_ok_shape {info : List (List Char × List Char)}
    {procs maints specs sec : List PyVal} {r : PyVal}
    (h : create_comprehensive_fallback_synthesis info procs maints specs sec
      = Except.ok r) :
    ∃ ps ms, (procs.take 5).mapM mkProcFallback = Except.ok ps ∧
      (maints.take 6).mapM mkMaintFallback = Except.ok ms ∧
      r = fallbackDict info procs maints ps ms := by
  unfold create_comprehensive_fallback_synthesis at h
  cases hp : (procs.take 5).mapM mkProcFallback with
  | error e => rw [hp] at h; simp [bind, Except.bind] at h
  | ok ps =>
    rw [hp] at h
    simp only [except_bind_ok] at h
    cases hm : (maints.take 6).mapM mkMaintFallback with
    | error e => rw [hm] at h; simp [bind, Except.bind] at h
    | ok ms =>
      rw [hm] at h
      simp only [except_bind_ok] at h
      simp only [bind, Except.bind, pure, Except.pure] at h
      injection h with h
      exact ⟨ps, ms, rfl, rfl, h.symm⟩

theorem countTruthyKey_ok (items : List PyVal) (k : List Char)
    (h : ∀ p ∈ items, pyIsDict p = true) : ∃ n, countTruthyKey items k = Except.ok n := by
  unfold countTruthyKey
  suffices hgen : ∀ (acc : Nat), ∃ n, items.foldlM (fun acc p => do
      let v ← pyGetD p k PyVal.pynull
      pure (if pyTruthy v then acc + 1 else acc)) acc = Except.ok n from hgen 0
  induction items with
  | nil => intro acc; exact ⟨acc, rfl⟩
  | cons p t ih =>
    intro acc
    have hp : pyIsDict p = true := h p (by simp)
    have hrest : ∀ q ∈ t, pyIsDict q = true := fun q hq => h q (by simp [hq])
    obtain ⟨kvs, hkvs⟩ : ∃ kvs, p = PyVal.dict kvs := by
      cases p <;> simp [pyIsDict] at hp
      case dict kvs => exact ⟨kvs, rfl⟩
    subst hkvs
    rw [List.foldlM_cons]
    rw [show pyGetD (PyVal.dict kvs) k PyVal.pynull
      = Except.ok ((lookupKV kvs k).getD PyVal.pynull) from rfl]
    rw [except_bind_ok]
    have ih' := ih hrest
    exact ih' _

theorem calcStats_fallback_isOk (pdf_chunks : List (List Nat))
    (analysis_chunks : List AnalysisChunk) (chunk_texts : List ExtractionResult)
    (chunk_analyses : List ChunkRecord) (info : List (List Char × List Char))
    (procs maints ps ms : List PyVal)
    (hps : ∀ p ∈ ps, pyIsDict p = true) (hms : ∀ m ∈ ms, pyIsDict m = true) :
    (calculate_comprehensive_stats pdf_chunks analysis_chunks chunk_texts chunk_analyses
      (fallbackDict info procs maints ps ms)).isOk = true := by
  obtain ⟨n1, h1⟩ := countTruthyKey_ok ps ("performance_analytique".toList) hps
  obtain ⟨n2, h2⟩ := countTruthyKey_ok ps ("controles_qualite".toList) hps
  obtain ⟨n3, h3⟩ := countTruthyKey_ok ps ("precautions_critiques".toList) hps
  obtain ⟨n4, h4⟩ := countTruthyKey_ok ms ("duree_estimee".toList) hms
  obtain ⟨n5, h5⟩ := countTruthyKey_ok ms ("materiels_specifiques".toList) hms
  unfold calculate_comprehensive_stats
  rw [show pyGetD (fallbackDict info procs maints ps ms) ("procedures_analyses".toList)
      (PyVal.list []) = Except.ok (PyVal.list ps) from rfl, except_bind_ok]
  rw [show pyGetD (fallbackDict info procs maints ps ms) ("maintenance_preventive".toList)
      (PyVal.list []) = Except.ok (PyVal.list ms) from rfl, except_bind_ok]
  rw [show pyLen (PyVal.list ps) = Except.ok ps.length from rfl, except_bind_ok]
  rw [show pyLen (PyVal.list ms) = Except.ok ms.length from rfl, except_bind_ok]
  rw [show pyIter (PyVal.list ps) = Except.ok ps from rfl, except_bind_ok]
  rw [show pyIter (PyVal.list ms) = Except.ok ms from rfl, except_bind_ok]
  rw [h1, except_bind_ok, h2, except_bind_ok, h3, except_bind_ok,
    h4, except_bind_ok, h5, except_bind_ok]
  rw [show pyGet2 (fallbackDict info procs maints ps ms) ("informations_generales".toList)
      ("nom_instrument".toList) PyVal.pynull
    = Except.ok (PyVal.str ((lookupKV info ("nom".toList)).getD
        ("Instrument non identifié".toList))) from rfl, except_bind_ok]
  rw [show pyGet2 (fallbackDict info procs maints ps ms) ("informations_generales".toList)
      ("principe_fonctionnement".toList) PyVal.pynull
    = Except.ok (PyVal.str ((lookupKV info ("principe_technique".toList)).getD
        ("Non spécifié".toList))) from rfl, except_bind_ok]
  rw [show pyGetD (fallbackDict info procs maints ps ms)
      ("guide_utilisation_quotidienne".toList) PyVal.pynull
    = Except.ok guideQuotidienne from rfl, except_bind_ok]
  rw [show pyGetD (fallbackDict info procs maints ps ms) ("resume_executif".toList)
      (PyVal.str [])
    = Except.ok (PyVal.str (resumeFallback info procs maints)) from rfl, except_bind_ok]
  rw [show pyLen (PyVal.str (resumeFallback info procs maints))
    = Except.ok (resumeFallback info procs maints).length from rfl, except_bind_ok]
  rfl

theorem analyzeGo_length (env : Env) :
    ∀ (units : List AnalysisChunk) (i : Nat) (recs : List ChunkRecord)
      (ctx : List Char) (rs : List ChunkRecord) (ctx' : List Char),
      analyzeGo env units i recs ctx = Except.ok (rs, ctx') →
      rs.length = recs.length + units.length := by
  intro units
  induction units with
  | nil =>
    intro i recs ctx rs ctx' h
    unfold analyzeGo at h
    injection h with h
    rw [show rs = recs from congrArg Prod.fst h.symm]
    simp
  | cons u rest ih =>
    intro i recs ctx rs ctx' h
    unfold analyzeGo at h
    cases hg : env.gemini i (promptContext ctx) with
    | error e => rw [hg] at h; simp [bind, Except.bind] at h
    | ok r =>
      rw [hg] at h
      simp only [except_bind_ok] at h
      have := ih (i + 1) (recs ++ [r]) (updateContext ctx u.description r) rs ctx' h
      rw [this]
      simp
      omega

theorem stage1_analyses_ne (env : Env) (a : Artifacts) (h : stage1 env = Except.ok a) :
    a.chunk_analyses ≠ [] := by
  unfold stage1 at h
  cases hp : env.prepare with
  | error e => rw [hp] at h; simp [bind, Except.bind] at h
  | ok u =>
    rw [hp] at h
    simp only [except_bind_ok] at h
    cases hr : split_pdf_15pages env.totalPages with
    | error e => rw [hr] at h; simp [bind, Except.bind] at h
    | ok ranges =>
      rw [hr] at h
      simp only [except_bind_ok] at h
      cases ht : extractAll env (chunkFiles env ranges) with
      | error e => rw [ht] at h; simp [bind, Except.bind] at h
      | ok texts =>
        rw [ht] at h
        simp only [except_bind_ok] at h
        cases hm : merge_texts_medical texts with
        | error e => rw [hm] at h; simp [bind, Except.bind] at h
        | ok full =>
          rw [hm] at h
          simp only [except_bind_ok] at h
          by_cases hc1 : (full.isEmpty = true ∨ (pyStrip full).length < 500)
          · rw [if_pos hc1] at h
            exact absurd h (by simp)
          · rw [if_neg hc1] at h
            cases hu : create_analysis_chunks full with
            | error e => rw [hu] at h; simp [bind, Except.bind] at h
            | ok units =>
              rw [hu] at h
              simp only [except_bind_ok] at h
              by_cases hc2 : units.isEmpty = true
              · rw [if_pos hc2] at h
                exact absurd h (by simp)
              · rw [if_neg hc2] at h
                cases hag : analyzeGo env units 0 [] [] with
                | error e => rw [hag] at h; simp [bind, Except.bind] at h
                | ok ra =>
                  obtain ⟨rs, ctx'⟩ := ra
                  rw [hag] at h
                  simp only [except_bind_ok] at h
                  simp only [pure, Except.pure] at h
                  injection h with h
                  have hlen := analyzeGo_length env units 0 [] [] rs ctx' hag
                  intro h0
                  rw [← h] at h0
                  simp only at h0
                  rw [h0] at hlen
                  simp only [List.length_nil, Nat.zero_add] at hlen
                  have hun : units = [] := List.length_eq_zero.mp hlen.symm
                  rw [hun] at hc2
                  simp at hc2

/-- Did the consolidation request fail — an exception during the request,
JSON recovery or parsing (`Except.error`), or a parsed payload rejected by
`validate_comprehensive_synthesis` (not a dict)? -/
def synthFailed (env : Env) : Bool :=
  match env.synthLLM with
  | Except.error _ => true
  | Except.ok r => !pyIsDict r

/-- The deterministic fallback record of a run's artifacts. -/
def fallbackOf (a : Artifacts) : Except (List Char) PyVal :=
  let c := compileAnalyses a.chunk_analyses
  create_comprehensive_fallback_synthesis c.instrument_info c.all_procedures
    c.all_maintenance c.all_specs c.all_security

/-- Does the fallback construction itself succeed on this run's artifacts? -/
def fallbackSucceeds (env : Env) : Bool :=
  match stage1 env with
  | Except.ok a => (fallbackOf a).isOk
  | Except.error _ => false

/-- Lookup in a dict value. -/
def pyDictFind (v : PyVal) (k : List Char) : Option PyVal :=
  match v with
  | PyVal.dict kvs => lookupKV kvs k
  | _ => none

/-- C1 (amended): when the final consolidation call fails (exception during
the request, JSON recovery, or validation) and the deterministic fallback
construction itself succeeds — i.e. every accessed item of the bounded
slices is a dict — the run does not abort: the synthesis returned upward is
the fallback record built only from the already-reduced per-chunk lists and
identity fields, holding at most 5 reshaped procedures and at most 6
reshaped maintenance items, its executive summary embeds the fixed marker
sentence (`"générée automatiquement"`; there is no dedicated tag field),
and the run reports `success = true` with no error.  (When the fallback
construction itself raises — a non-dict item in the slices — the run
reports `success = false`; see the counterexample.) -/
theorem C1_fallback_synthesis_success (env : Env)
    (h1 : (stage1 env).isOk = true)
    (h2 : synthFailed env = true)
    (h3 : fallbackSucceeds env = true)
    (h4 : env.latexOk = true) :
    ∃ a r, stage1 env = Except.ok a ∧ fallbackOf a = Except.ok r ∧
      (analyze_manual_organized env).success = true ∧
      (analyze_manual_organized env).error = none ∧
      (analyze_manual_organized env).synthesis = some r ∧
      (∃ ps, pyDictFind r ("procedures_analyses".toList) = some (PyVal.list ps)
        ∧ ps.length ≤ 5) ∧
      (∃ ms, pyDictFind r ("maintenance_preventive".toList) = some (PyVal.list ms)
        ∧ ms.length ≤ 6) ∧
      (∃ res, pyDictFind r ("resume_executif".toList) = some (PyVal.str res)
        ∧ containsSub fallbackMarker res = true) := by
  cases hs : stage1 env with
  | error e => rw [hs] at h1; cases h1
  | ok a =>
    have hfb : (fallbackOf a).isOk = true := by
      unfold fallbackSucceeds at h3
      rw [hs] at h3
      exact h3
    cases hr : fallbackOf a with
    | error e => rw [hr] at hfb; cases hfb
    | ok r =>
      have hsynth : synthesize_final_medical a.chunk_analyses env.synthLLM
          = fallbackOf a := by
        unfold synthesize_final_medical fallbackOf
        rw [if_neg (by simpa [List.isEmpty_iff] using stage1_analyses_ne env a hs)]
        unfold synthFailed at h2
        cases hl : env.synthLLM with
        | error e => rfl
        | ok r' =>
          rw [hl] at h2
          simp only [Bool.not_eq_true'] at h2
          dsimp only
          rw [h2]
          rw [if_neg (by simp)]
      have hr' : create_comprehensive_fallback_synthesis
          (compileAnalyses a.chunk_analyses).instrument_info
          (compileAnalyses a.chunk_analyses).all_procedures
          (compileAnalyses a.chunk_analyses).all_maintenance
          (compileAnalyses a.chunk_analyses).all_specs
          (compileAnalyses a.chunk_analyses).all_security = Except.ok r := hr
      obtain ⟨ps, ms, hps, hms, hrdef⟩ := fallback_ok_shape hr'
      have hpsdict : ∀ p ∈ ps, pyIsDict p = true :=
        except_mapM_ok_forall mkProcFallback (fun y => pyIsDict y = true)
          (fun x y hxy => mkProcFallback_isDict hxy) _ ps hps
      have hmsdict : ∀ m ∈ ms, pyIsDict m = true :=
        except_mapM_ok_forall mkMaintFallback (fun y => pyIsDict y = true)
          (fun x y hxy => mkMaintFallback_isDict hxy) _ ms hms
      have hstok := calcStats_fallback_isOk a.pdf_chunks a.analysis_chunks a.chunk_texts
        a.chunk_analyses (compileAnalyses a.chunk_analyses).instrument_info
        (compileAnalyses a.chunk_analyses).all_procedures
        (compileAnalyses a.chunk_analyses).all_maintenance ps ms hpsdict hmsdict
      rw [← hrdef] at hstok
      cases hst : calculate_comprehensive_stats a.pdf_chunks a.analysis_chunks
          a.chunk_texts a.chunk_analyses r with
      | error e => rw [hst] at hstok; cases hstok
      | ok st =>
        have hrun : runPipeline env = Except.ok (a, r, st) := by
          unfold runPipeline
          rw [hs, except_bind_ok, hsynth, hr, except_bind_ok]
          rw [h4]
          rw [if_pos rfl]
          rw [hst, except_bind_ok]
          rfl
        refine ⟨a, r, rfl, hr, ?_, ?_, ?_, ?_, ?_, ?_⟩
        · unfold analyze_manual_organized
          rw [hrun]
        · unfold analyze_manual_organized
          rw [hrun]
        · unfold analyze_manual_organized
          rw [hrun]
        · refine ⟨ps, ?_, ?_⟩
          · rw [hrdef]
            rfl
          · rw [except_mapM_ok_length mkProcFallback _ ps hps, List.length_take]
            exact min_le_left _ _
        · refine ⟨ms, ?_, ?_⟩
          · rw [hrdef]
            rfl
          · rw [except_mapM_ok_length mkMaintFallback _ ms hms, List.length_take]
            exact min_le_left _ _
        · refine ⟨resumeFallback (compileAnalyses a.chunk_analyses).instrument_info
            (compileAnalyses a.chunk_analyses).all_procedures
            (compileAnalyses a.chunk_analyses).all_maintenance, ?_, ?_⟩
          · rw [hrdef]
            rfl
          · exact resumeFallback_marker _ _ _

/-- A normalized analysis record whose one procedure item is a dict. -/
def recGood : ChunkRecord :=
  { instrument := [(("nom".toList), ("ABC X1".toList))]
    procedures := [PyVal.dict [(("nom".toList), PyVal.str ("Test P".toList))]]
    maintenance := []
    specifications_techniques := []
    securite := []
    stockage_reagents := []
    validation_clinique := PyVal.dict []
    calibration := []
    troubleshooting := []
    resume_section := ("résumé".toList) }

/-- A normalized analysis record whose one procedure item is a bare string
(the relaxed schema does not validate list items). -/
def recStrProc : ChunkRecord :=
  { recGood with procedures := [PyVal.str ("étape texte".toList)] }

/-- A one-page run whose consolidation request fails and whose single
analysis record is `recGood`. -/
def envFallbackOk : Env :=
  { pdfName := ("m.pdf".toList)
    totalPages := 1
    prepare := Except.ok ()
    ocr := fun i => if i = 0 then Except.ok (List.replicate 301 'a', 1)
                    else Except.error ("unused".toList)
    gemini := fun i _ => if i = 0 then Except.ok recGood
                         else Except.error ("unused".toList)
    synthLLM := Except.error ("forced consolidation failure".toList)
    latexOk := true }

/-- The same run with the string procedure item. -/
def envFallbackCrash : Env :=
  { envFallbackOk with
    gemini := fun i _ => if i = 0 then Except.ok recStrProc
                         else Except.error ("unused".toList) }

/-- Witness for C1 (amended) at the concrete environment `envFallbackOk`. -/
theorem C1_fallback_synthesis_success_witness :
    ((stage1 envFallbackOk).isOk = true ∧ synthFailed envFallbackOk = true ∧
     fallbackSucceeds envFallbackOk = true ∧ envFallbackOk.latexOk = true) ∧
    (∃ a r, stage1 envFallbackOk = Except.ok a ∧ fallbackOf a = Except.ok r ∧
      (analyze_manual_organized envFallbackOk).success = true ∧
      (analyze_manual_organized envFallbackOk).error = none ∧
      (analyze_manual_organized envFallbackOk).synthesis = some r ∧
      (∃ ps, pyDictFind r ("procedures_analyses".toList) = some (PyVal.list ps)
        ∧ ps.length ≤ 5) ∧
      (∃ ms, pyDictFind r ("maintenance_preventive".toList) = some (PyVal.list ms)
        ∧ ms.length ≤ 6) ∧
      (∃ res, pyDictFind r ("resume_executif".toList) = some (PyVal.str res)
        ∧ containsSub fallbackMarker res = true)) :=
  ⟨⟨by rfl, by rfl, by rfl, by rfl⟩,
   C1_fallback_synthesis_success envFallbackOk (by rfl) (by rfl) (by rfl) (by rfl)⟩

/-- C1 counterexample: in the run `envFallbackCrash` the consolidation call
fails, and the fallback builder hits the string procedure item — Python's
`proc.get(...)` raises `AttributeError` inside the `except` handler — so
the exception propagates and the run reports `success = false`: with the
consolidation capability failing, the run does *not* always report
`success = true`. -/
theorem C1_counterexample :
    synthFailed envFallbackCrash = true ∧
    (analyze_manual_organized envFallbackCrash).success = false ∧
    (analyze_manual_organized envFallbackCrash).error
      = some ("AttributeError: no attribute get".toList) := by
  refine ⟨by rfl, by rfl, by rfl⟩
